import Mathlib

/-!
# Credential Vault & Audit Subsystem: a shallow embedding

A shallow embedding of the credential vault of the `jupyter-demo` backend
(`app/core/encryption.py`, `app/models/credentials.py`,
`app/services/credential_service.py`) together with proofs about the
specification claims over it.

Modelling conventions:
* Python `str` values are modelled as `List Char`.  A Lean `Char` is exactly
  a Unicode scalar value, which matches every string that can reach this
  code through JSON/HTTP transport and that `str.encode` accepts.
* Python `bytes` values are modelled as `List Nat` with every entry `< 256`.
* Machine-word arithmetic inside SHA-256 is `Nat` arithmetic reduced
  `% 2 ^ 32` at every step.
* `datetime.utcnow()` is an abstract monotone tick supplied by the caller as
  a `Nat` parameter, and the random salt produced by `secrets.token_hex(16)`
  is supplied by the caller as an oracle argument.
* Fallible operations (`base64.b64decode`, `bytes.decode`, decryption)
  return `Option`.

## UTF-8

`encryption.py` calls `str.encode()` / `bytes.decode()` (UTF-8) and
`base64.b64encode` / `base64.b64decode`; both codecs are embedded here so
that the encryption pipeline can be stated end to end over the stored
ciphertext strings.
-/

def utf8EncodeChar (c : Char) : List Nat :=
  if c.toNat < 0x80 then [c.toNat]
  else if c.toNat < 0x800 then [0xC0 + c.toNat / 64, 0x80 + c.toNat % 64]
  else if c.toNat < 0x10000 then
    [0xE0 + c.toNat / 4096, 0x80 + c.toNat / 64 % 64, 0x80 + c.toNat % 64]
  else
    [0xF0 + c.toNat / 262144, 0x80 + c.toNat / 4096 % 64,
      0x80 + c.toNat / 64 % 64, 0x80 + c.toNat % 64]

def utf8Encode (s : List Char) : List Nat := s.flatMap utf8EncodeChar

def isCont (b : Nat) : Bool := decide (0x80 ≤ b) && decide (b < 0xC0)

def decodeStep : List Nat → Option (Char × List Nat)
  | [] => none
  | b :: bs =>
    if b < 0x80 then some (Char.ofNat b, bs)
    else if b < 0xC0 then none
    else if b < 0xE0 then
      match bs with
      | b1 :: bs1 =>
        if isCont b1 then
          if 0x80 ≤ (b - 0xC0) * 64 + (b1 - 0x80) then
            some (Char.ofNat ((b - 0xC0) * 64 + (b1 - 0x80)), bs1)
          else none
        else none
      | [] => none
    else if b < 0xF0 then
      match bs with
      | b1 :: b2 :: bs2 =>
        if isCont b1 && isCont b2 then
          if 0x800 ≤ (b - 0xE0) * 4096 + (b1 - 0x80) * 64 + (b2 - 0x80) &&
              !(decide (0xD800 ≤ (b - 0xE0) * 4096 + (b1 - 0x80) * 64 + (b2 - 0x80)) &&
                decide ((b - 0xE0) * 4096 + (b1 - 0x80) * 64 + (b2 - 0x80) < 0xE000)) then
            some (Char.ofNat ((b - 0xE0) * 4096 + (b1 - 0x80) * 64 + (b2 - 0x80)), bs2)
          else none
        else none
      | _ => none
    else if b < 0xF5 then
      match bs with
      | b1 :: b2 :: b3 :: bs3 =>
        if isCont b1 && isCont b2 && isCont b3 then
          if 0x10000 ≤ (b - 0xF0) * 262144 + (b1 - 0x80) * 4096 + (b2 - 0x80) * 64 + (b3 - 0x80) &&
              (b - 0xF0) * 262144 + (b1 - 0x80) * 4096 + (b2 - 0x80) * 64 + (b3 - 0x80) < 0x110000 then
            some (Char.ofNat ((b - 0xF0) * 262144 + (b1 - 0x80) * 4096 + (b2 - 0x80) * 64 + (b3 - 0x80)), bs3)
          else none
        else none
      | _ => none
    else none

theorem decodeStep_shrink : ∀ {l : List Nat} {c : Char} {rest : List Nat},
    decodeStep l = some (c, rest) → rest.length < l.length := by
  intro l c rest h
  match l with
  | [] => simp [decodeStep] at h
  | b :: bs =>
    simp only [decodeStep] at h
    split_ifs at h
    all_goals try split at h
    all_goals try split_ifs at h
    all_goals
      first
      | exact Option.noConfusion h
      | (simp only [Option.some.injEq, Prod.mk.injEq] at h
         rw [← h.2]
         simp only [List.length_cons]
         omega)

def utf8Decode (l : List Nat) : Option (List Char) :=
  match l with
  | [] => some []
  | b :: bs =>
    match h : decodeStep (b :: bs) with
    | none => none
    | some (c, rest) => (utf8Decode rest).map (fun cs => c :: cs)
termination_by l.length
decreasing_by
  simp only [List.length_cons]
  have := decodeStep_shrink h
  simpa using this

theorem toNat_ofNat_of_valid {n : Nat} (h : n.isValidChar) :
    (Char.ofNat n).toNat = n := by
  simp only [Char.ofNat, dif_pos h]
  rfl

theorem char_isValidChar (c : Char) : Nat.isValidChar c.toNat := c.valid

theorem char_surrogate_free (c : Char) :
    c.toNat < 0xD800 ∨ (0xDFFF < c.toNat ∧ c.toNat < 0x110000) :=
  char_isValidChar c

theorem char_toNat_lt (c : Char) : c.toNat < 0x110000 := by
  rcases char_surrogate_free c with h | h <;> omega

theorem utf8EncodeChar_lt (c : Char) : ∀ b ∈ utf8EncodeChar c, b < 256 := by
  intro b hb
  have hlt := char_toNat_lt c
  unfold utf8EncodeChar at hb
  split_ifs at hb <;> simp only [List.mem_cons, List.not_mem_nil, or_false] at hb <;>
    rcases hb with h | h | h | h <;> omega

theorem utf8Encode_lt (s : List Char) : ∀ b ∈ utf8Encode s, b < 256 := by
  intro b hb
  unfold utf8Encode at hb
  rcases List.mem_flatMap.1 hb with ⟨c, _, hc⟩
  exact utf8EncodeChar_lt c b hc

theorem utf8EncodeChar_ne_nil (c : Char) : utf8EncodeChar c ≠ [] := by
  unfold utf8EncodeChar
  split_ifs <;> simp

theorem decodeStep_encodeChar (c : Char) (rest : List Nat) :
    decodeStep (utf8EncodeChar c ++ rest) = some (c, rest) := by
  have hsur := char_surrogate_free c
  have hc : Char.ofNat c.toNat = c := Char.ofNat_toNat c
  unfold utf8EncodeChar
  rcases Nat.lt_or_ge c.toNat 0x80 with h1 | h1
  · rw [if_pos h1]
    simp only [List.cons_append, List.nil_append, decodeStep]
    rw [if_pos h1, hc]
  · rcases Nat.lt_or_ge c.toNat 0x800 with h2 | h2
    · rw [if_neg (by omega), if_pos h2]
      simp only [List.cons_append, List.nil_append, decodeStep]
      rw [if_neg (by omega), if_neg (by omega), if_pos (by omega)]
      have hcont : isCont (0x80 + c.toNat % 64) = true := by
        simp only [isCont, Bool.and_eq_true, decide_eq_true_eq]
        omega
      rw [if_pos hcont, if_pos (by omega)]
      have harith : (0xC0 + c.toNat / 64 - 0xC0) * 64 + (0x80 + c.toNat % 64 - 0x80) = c.toNat := by
        omega
      rw [harith, hc]
    · rcases Nat.lt_or_ge c.toNat 0x10000 with h3 | h3
      · rw [if_neg (by omega), if_neg (by omega), if_pos h3]
        simp only [List.cons_append, List.nil_append, decodeStep]
        rw [if_neg (by omega), if_neg (by omega), if_neg (by omega), if_pos (by omega)]
        have hcont : (isCont (0x80 + c.toNat / 64 % 64) && isCont (0x80 + c.toNat % 64)) = true := by
          simp only [isCont, Bool.and_eq_true, decide_eq_true_eq]
          omega
        rw [if_pos hcont]
        have harith : (0xE0 + c.toNat / 4096 - 0xE0) * 4096 +
            (0x80 + c.toNat / 64 % 64 - 0x80) * 64 + (0x80 + c.toNat % 64 - 0x80) = c.toNat := by
          omega
        rw [harith]
        rw [if_pos (by
          simp only [Bool.and_eq_true, decide_eq_true_eq, Bool.not_eq_true',
            Bool.and_eq_false_iff, decide_eq_false_iff_not]
          omega)]
        rw [hc]
      · have h4 : c.toNat < 0x110000 := char_toNat_lt c
        rw [if_neg (by omega), if_neg (by omega), if_neg (by omega)]
        simp only [List.cons_append, List.nil_append, decodeStep]
        rw [if_neg (by omega), if_neg (by omega), if_neg (by omega), if_neg (by omega),
          if_pos (by omega)]
        have hcont : (isCont (0x80 + c.toNat / 4096 % 64) && isCont (0x80 + c.toNat / 64 % 64) &&
            isCont (0x80 + c.toNat % 64)) = true := by
          simp only [isCont, Bool.and_eq_true, decide_eq_true_eq]
          omega
        rw [if_pos hcont]
        have harith : (0xF0 + c.toNat / 262144 - 0xF0) * 262144 +
            (0x80 + c.toNat / 4096 % 64 - 0x80) * 4096 +
            (0x80 + c.toNat / 64 % 64 - 0x80) * 64 + (0x80 + c.toNat % 64 - 0x80) = c.toNat := by
          omega
        rw [harith]
        rw [if_pos (by simp only [Bool.and_eq_true, decide_eq_true_eq]; omega)]
        rw [hc]

theorem utf8Decode_nil : utf8Decode [] = some [] := by
  rw [utf8Decode.eq_def]

theorem utf8Decode_encodeChar (c : Char) (rest : List Nat) :
    utf8Decode (utf8EncodeChar c ++ rest) =
      (utf8Decode rest).map (fun cs => c :: cs) := by
  have hstep : decodeStep (utf8EncodeChar c ++ rest) = some (c, rest) :=
    decodeStep_encodeChar c rest
  obtain ⟨b, bs, hbs⟩ : ∃ b bs, utf8EncodeChar c = b :: bs := by
    cases h : utf8EncodeChar c with
    | nil => exact absurd h (utf8EncodeChar_ne_nil c)
    | cons b bs => exact ⟨b, bs, rfl⟩
  rw [hbs] at hstep ⊢
  rw [List.cons_append] at hstep ⊢
  rw [utf8Decode.eq_def]
  split
  · next heq => exact absurd heq (by simp)
  · next c' rest' heq =>
    injection heq with h1 h2
    subst h1
    subst h2
    split
    · next heq2 =>
      rw [hstep] at heq2
      exact Option.noConfusion heq2
    · next c'' rest'' heq2 =>
      rw [hstep] at heq2
      simp only [Option.some.injEq, Prod.mk.injEq] at heq2
      rw [heq2.1, heq2.2]

theorem utf8Decode_utf8Encode (s : List Char) :
    utf8Decode (utf8Encode s) = some s := by
  induction s with
  | nil => exact utf8Decode_nil
  | cons c cs ih =>
    show utf8Decode (utf8EncodeChar c ++ utf8Encode cs) = _
    rw [utf8Decode_encodeChar, ih]
    rfl

/-!
## Base64

`base64.b64encode` / `base64.b64decode`.  Python's decoder (in its default
non-validating mode) first discards characters outside the alphabet, fails
when the remaining length is not a multiple of four, and ignores the unused
low bits of a final partial group.
-/

/-- The standard base64 alphabet, index to character. -/
def e64 (k : Nat) : Char :=
  if k < 26 then Char.ofNat (65 + k)
  else if k < 52 then Char.ofNat (97 + (k - 26))
  else if k < 62 then Char.ofNat (48 + (k - 52))
  else if k = 62 then '+'
  else '/'

/-- Base64 alphabet, character to index. -/
def d64 (c : Char) : Option Nat :=
  if 65 ≤ c.toNat ∧ c.toNat < 91 then some (c.toNat - 65)
  else if 97 ≤ c.toNat ∧ c.toNat < 123 then some (26 + (c.toNat - 97))
  else if 48 ≤ c.toNat ∧ c.toNat < 58 then some (52 + (c.toNat - 48))
  else if c = '+' then some 62
  else if c = '/' then some 63
  else none

def b64Encode : List Nat → List Char
  | [] => []
  | [a] => [e64 (a / 4), e64 (a % 4 * 16), '=', '=']
  | [a, b] => [e64 (a / 4), e64 (a % 4 * 16 + b / 16), e64 (b % 16 * 4), '=']
  | a :: b :: c :: rest =>
      e64 (a / 4) :: e64 (a % 4 * 16 + b / 16) :: e64 (b % 16 * 4 + c / 64) ::
        e64 (c % 64) :: b64Encode rest

def b64DecodeCore : List Char → Option (List Nat)
  | [] => some []
  | c1 :: c2 :: c3 :: c4 :: rest =>
    if c3 = '=' ∧ c4 = '=' ∧ rest = [] then do
      let a ← d64 c1
      let b ← d64 c2
      pure [a * 4 + b / 16]
    else if c4 = '=' ∧ rest = [] then do
      let a ← d64 c1
      let b ← d64 c2
      let c ← d64 c3
      pure [a * 4 + b / 16, b % 16 * 16 + c / 4]
    else do
      let a ← d64 c1
      let b ← d64 c2
      let c ← d64 c3
      let d ← d64 c4
      let tail ← b64DecodeCore rest
      pure ((a * 4 + b / 16) :: (b % 16 * 16 + c / 4) :: (c % 4 * 64 + d) :: tail)
  | _ => none

def isB64Char (c : Char) : Bool := (d64 c).isSome || decide (c = '=')

def b64Decode (s : List Char) : Option (List Nat) :=
  b64DecodeCore (s.filter isB64Char)

theorem d64_e64 : ∀ k, k < 64 → d64 (e64 k) = some k := by decide

theorem e64_ne_pad : ∀ k, k < 64 → e64 k ≠ '=' := by decide

theorem isB64Char_e64 (k : Nat) (hk : k < 64) : isB64Char (e64 k) = true := by
  simp [isB64Char, d64_e64 k hk]

theorem isB64Char_pad : isB64Char '=' = true := by decide

theorem filter_b64Encode (bs : List Nat) (hb : ∀ x ∈ bs, x < 256) :
    (b64Encode bs).filter isB64Char = b64Encode bs := by
  match bs with
  | [] => rfl
  | [a] =>
    have ha : a < 256 := hb a (by simp)
    simp [b64Encode, List.filter_cons, isB64Char_e64 (a / 4) (by omega : a / 4 < 64),
      isB64Char_e64 (a % 4 * 16) (by omega : a % 4 * 16 < 64), isB64Char_pad]
  | [a, b] =>
    have ha : a < 256 := hb a (by simp)
    have hbb : b < 256 := hb b (by simp)
    simp [b64Encode, List.filter_cons, isB64Char_e64 (a / 4) (by omega : a / 4 < 64),
      isB64Char_e64 (a % 4 * 16 + b / 16) (by omega : a % 4 * 16 + b / 16 < 64),
      isB64Char_e64 (b % 16 * 4) (by omega : b % 16 * 4 < 64), isB64Char_pad]
  | a :: b :: c :: rest =>
    have ha : a < 256 := hb a (by simp)
    have hbb : b < 256 := hb b (by simp)
    have hc : c < 256 := hb c (by simp)
    have ih := filter_b64Encode rest (fun x hx => hb x (by simp [hx]))
    simp [b64Encode, List.filter_cons, isB64Char_e64 (a / 4) (by omega : a / 4 < 64),
      isB64Char_e64 (a % 4 * 16 + b / 16) (by omega : a % 4 * 16 + b / 16 < 64),
      isB64Char_e64 (b % 16 * 4 + c / 64) (by omega : b % 16 * 4 + c / 64 < 64),
      isB64Char_e64 (c % 64) (by omega : c % 64 < 64), ih]
termination_by bs.length

theorem b64DecodeCore_b64Encode (bs : List Nat) (hb : ∀ x ∈ bs, x < 256) :
    b64DecodeCore (b64Encode bs) = some bs := by
  match bs with
  | [] => rfl
  | [a] =>
    have ha : a < 256 := hb a (by simp)
    simp only [b64Encode, b64DecodeCore, if_pos (by simp : ('=' : Char) = '=' ∧ ('=' : Char) = '=' ∧ ([] : List Char) = []),
      d64_e64 _ (by omega : a / 4 < 64), d64_e64 _ (by omega : a % 4 * 16 < 64),
      Option.bind_eq_bind, Option.some_bind, Option.pure_def, if_true,
      Option.some.injEq, List.cons.injEq, and_true]
    omega
  | [a, b] =>
    have ha : a < 256 := hb a (by simp)
    have hbb : b < 256 := hb b (by simp)
    simp only [b64Encode, b64DecodeCore]
    rw [if_neg (by
      intro hx
      exact e64_ne_pad _ (by omega) hx.1)]
    rw [if_pos (by simp)]
    simp only [d64_e64 _ (by omega : a / 4 < 64),
      d64_e64 _ (by omega : a % 4 * 16 + b / 16 < 64),
      d64_e64 _ (by omega : b % 16 * 4 < 64),
      Option.bind_eq_bind, Option.some_bind, Option.pure_def, Option.some.injEq,
      List.cons.injEq, and_true]
    constructor
    · omega
    · omega
  | a :: b :: c :: rest =>
    have ha : a < 256 := hb a (by simp)
    have hbb : b < 256 := hb b (by simp)
    have hc : c < 256 := hb c (by simp)
    have ih := b64DecodeCore_b64Encode rest (fun x hx => hb x (by simp [hx]))
    simp only [b64Encode, b64DecodeCore]
    rw [if_neg (by
      intro hx
      exact e64_ne_pad _ (by omega) hx.1)]
    rw [if_neg (by
      intro hx
      exact e64_ne_pad _ (by omega) hx.1)]
    simp only [d64_e64 _ (by omega : a / 4 < 64),
      d64_e64 _ (by omega : a % 4 * 16 + b / 16 < 64),
      d64_e64 _ (by omega : b % 16 * 4 + c / 64 < 64),
      d64_e64 _ (by omega : c % 64 < 64), ih,
      Option.bind_eq_bind, Option.some_bind, Option.pure_def, Option.some.injEq,
      List.cons.injEq, and_true]
    refine ⟨by omega, by omega, by omega⟩
termination_by bs.length

theorem b64Decode_b64Encode (bs : List Nat) (hb : ∀ x ∈ bs, x < 256) :
    b64Decode (b64Encode bs) = some bs := by
  rw [b64Decode, filter_b64Encode bs hb, b64DecodeCore_b64Encode bs hb]

/-!
## SHA-256

`hashlib.sha256(...).hexdigest()`, used by `create_encryption_key` and
`hash_connection_identifier`.
-/

/-- Truncate to a 32-bit word. -/
def w32 (x : Nat) : Nat := x % 4294967296

/-- Right rotation of a 32-bit word. -/
def rotr (n x : Nat) : Nat := w32 ((x >>> n) ||| (x <<< (32 - n)))

def shaCh (x y z : Nat) : Nat := (x &&& y) ^^^ ((x ^^^ 4294967295) &&& z)

def shaMaj (x y z : Nat) : Nat := (x &&& y) ^^^ (x &&& z) ^^^ (y &&& z)

def bigSigma0 (x : Nat) : Nat := rotr 2 x ^^^ rotr 13 x ^^^ rotr 22 x

def bigSigma1 (x : Nat) : Nat := rotr 6 x ^^^ rotr 11 x ^^^ rotr 25 x

def smallSigma0 (x : Nat) : Nat := rotr 7 x ^^^ rotr 18 x ^^^ (x >>> 3)

def smallSigma1 (x : Nat) : Nat := rotr 17 x ^^^ rotr 19 x ^^^ (x >>> 10)

/-- SHA-256 round constants: fractional parts of cube roots of the first 64 primes. -/
def shaK : List Nat :=
  [1116352408, 1899447441, 3049323471, 3921009573, 961987163,
   1508970993, 2453635748, 2870763221, 3624381080, 310598401,
   607225278, 1426881987, 1925078388, 2162078206, 2614888103,
   3248222580, 3835390401, 4022224774, 264347078, 604807628,
   770255983, 1249150122, 1555081692, 1996064986, 2554220882,
   2821834349, 2952996808, 3210313671, 3336571891, 3584528711,
   113926993, 338241895, 666307205, 773529912, 1294757372,
   1396182291, 1695183700, 1986661051, 2177026350, 2456956037,
   2730485921, 2820302411, 3259730800, 3345764771, 3516065817,
   3600352804, 4094571909, 275423344, 430227734, 506948616,
   659060556, 883997877, 958139571, 1322822218, 1537002063,
   1747873779, 1955562222, 2024104815, 2227730452, 2361852424,
   2428436474, 2756734187, 3204031479, 3329325298]

/-- The eight-word SHA-256 working state. -/
structure Hash8 where
  a : Nat
  b : Nat
  c : Nat
  d : Nat
  e : Nat
  f : Nat
  g : Nat
  h : Nat

/-- Initial hash values: fractional parts of square roots of the first 8 primes. -/
def shaInit : Hash8 :=
  ⟨1779033703, 3144134277, 1013904242, 2773480762, 1359893119, 2600822924, 528734635, 1541459225⟩

/-- One compression round. -/
def shaRound (s : Hash8) (kw : Nat × Nat) : Hash8 :=
  let t1 := w32 (s.h + bigSigma1 s.e + shaCh s.e s.f s.g + kw.1 + kw.2)
  let t2 := w32 (bigSigma0 s.a + shaMaj s.a s.b s.c)
  ⟨w32 (t1 + t2), s.a, s.b, s.c, w32 (s.d + t1), s.e, s.f, s.g⟩

/-- Big-endian word from four bytes. -/
def wordOfBytes : List Nat → Nat
  | [b0, b1, b2, b3] => b0 * 16777216 + b1 * 65536 + b2 * 256 + b3
  | _ => 0

/-- Split into chunks of `n` elements. -/
def chunksOf (n : Nat) (l : List Nat) (hn : 0 < n := by decide) : List (List Nat) :=
  if h : l = [] then []
  else l.take n :: chunksOf n (l.drop n) hn
termination_by l.length
decreasing_by
  have : l.length ≠ 0 := fun hl => h (List.eq_nil_of_length_eq_zero hl)
  simp only [List.length_drop]
  omega

/-- Message-schedule extension from 16 to 64 words.  `acc` is kept in reverse
order so that the recently produced words are at the head. -/
def extendSchedule : Nat → List Nat → List Nat
  | 0, acc => acc.reverse
  | n + 1, acc =>
    let w2 := acc.getD 1 0
    let w7 := acc.getD 6 0
    let w15 := acc.getD 14 0
    let w16 := acc.getD 15 0
    extendSchedule n (w32 (smallSigma1 w2 + w7 + smallSigma0 w15 + w16) :: acc)

/-- The 64-word message schedule of one 64-byte block. -/
def msgSchedule (block : List Nat) : List Nat :=
  extendSchedule 48 (((chunksOf 4 block).map wordOfBytes).reverse)

/-- Compress one 64-byte block into the running hash state. -/
def shaCompress (s : Hash8) (block : List Nat) : Hash8 :=
  let t := (shaK.zip (msgSchedule block)).foldl shaRound s
  ⟨w32 (s.a + t.a), w32 (s.b + t.b), w32 (s.c + t.c), w32 (s.d + t.d),
   w32 (s.e + t.e), w32 (s.f + t.f), w32 (s.g + t.g), w32 (s.h + t.h)⟩

/-- Big-endian bytes of `n`, `k` bytes wide. -/
def natToBytesBE (k n : Nat) : List Nat :=
  (List.range k).map (fun i => n / 256 ^ (k - 1 - i) % 256)

/-- SHA-256 padding: `0x80`, zeros to 56 mod 64, then the 64-bit bit length. -/
def shaPad (ms : List Nat) : List Nat :=
  ms ++ [0x80] ++ List.replicate ((64 - (ms.length + 9) % 64) % 64) 0 ++
    natToBytesBE 8 (8 * ms.length)

/-- Four big-endian bytes of a 32-bit word. -/
def wordBytesBE (w : Nat) : List Nat :=
  [w / 16777216 % 256, w / 65536 % 256, w / 256 % 256, w % 256]

/-- The 32-byte SHA-256 digest of a byte string. -/
def sha256Bytes (ms : List Nat) : List Nat :=
  let s := ((chunksOf 64 (shaPad ms))).foldl shaCompress shaInit
  wordBytesBE s.a ++ wordBytesBE s.b ++ wordBytesBE s.c ++ wordBytesBE s.d ++
    wordBytesBE s.e ++ wordBytesBE s.f ++ wordBytesBE s.g ++ wordBytesBE s.h

/-- Lowercase hex digit. -/
def hexChar (d : Nat) : Char :=
  if d < 10 then Char.ofNat (48 + d) else Char.ofNat (87 + d)

/-- Lowercase hex rendering of a byte string, as Python's `hexdigest`. -/
def bytesToHex (bs : List Nat) : List Char :=
  bs.flatMap (fun b => [hexChar (b / 16), hexChar (b % 16)])

/-- `hashlib.sha256(ms).hexdigest()`. -/
def sha256Hex (ms : List Nat) : List Char := bytesToHex (sha256Bytes ms)

theorem sha256Bytes_length (ms : List Nat) : (sha256Bytes ms).length = 32 := by
  simp [sha256Bytes, wordBytesBE]

theorem sha256Bytes_lt (ms : List Nat) : ∀ b ∈ sha256Bytes ms, b < 256 := by
  intro b hb
  simp only [sha256Bytes, wordBytesBE, List.append_assoc, List.mem_append,
    List.mem_cons, List.not_mem_nil, or_false] at hb
  rcases hb with h | h | h | h | h | h | h | h <;>
    rcases h with h | h | h | h <;> subst h <;> omega

theorem hexChar_toNat_lt {d : Nat} (hd : d < 16) : (hexChar d).toNat < 128 := by
  unfold hexChar
  split_ifs with h
  · have hv : (48 + d).isValidChar := by
      constructor
      omega
    rw [show (Char.ofNat (48 + d)).toNat = 48 + d from by
      simp only [Char.ofNat, dif_pos hv]; rfl]
    omega
  · have hv : (87 + d).isValidChar := by
      constructor
      omega
    rw [show (Char.ofNat (87 + d)).toNat = 87 + d from by
      simp only [Char.ofNat, dif_pos hv]; rfl]
    omega

theorem sha256Hex_length (ms : List Nat) : (sha256Hex ms).length = 64 := by
  have h32 := sha256Bytes_length ms
  simp only [sha256Hex, bytesToHex]
  rw [List.length_flatMap]
  have hmap : List.map (List.length ∘ fun b => [hexChar (b / 16), hexChar (b % 16)])
      (sha256Bytes ms) = List.replicate (sha256Bytes ms).length 2 := by
    simp [Function.comp_def]
  rw [hmap, h32]
  simp [List.sum_replicate]

theorem sha256Hex_toNat_lt (ms : List Nat) : ∀ c ∈ sha256Hex ms, c.toNat < 128 := by
  intro c hc
  simp only [sha256Hex, bytesToHex, List.mem_flatMap, List.mem_cons,
    List.not_mem_nil, or_false] at hc
  obtain ⟨b, hb, hcb⟩ := hc
  have hblt : b < 256 := sha256Bytes_lt ms b hb
  rcases hcb with h | h <;> subst h <;> exact hexChar_toNat_lt (by omega)

theorem sha256Hex_ne_nil (ms : List Nat) : sha256Hex ms ≠ [] := by
  intro h
  have := sha256Hex_length ms
  rw [h] at this
  simp at this

/-!
## CredentialEncryption (`app/core/encryption.py`)

The vault's two credential helpers actually used by `credential_service.py`
are `encrypt_credential` / `decrypt_credential` (the XOR path keyed by
master key and salt) and `hash_connection_identifier`.  The salt that
`generate_salt` draws from `secrets.token_hex(16)` is passed in here as an
oracle argument, and `self.master_key` is an explicit first parameter.
-/

/-- The fallback master key of `CredentialEncryption.__init__` when the
`CREDENTIAL_MASTER_KEY` environment variable is absent. -/
def defaultMasterKey : List Char := "default_master_key_change_in_production".data

/-- `create_encryption_key`: SHA-256 hex digest of `master_key:salt`. -/
def create_encryption_key (masterKey salt : List Char) : List Char :=
  sha256Hex (utf8Encode (masterKey ++ [':'] ++ salt))

/-- The loop body of `xor_encrypt`, carrying the running index `i`. -/
def xor_encrypt_from (key : List Char) (i : Nat) : List Char → List Char
  | [] => []
  | c :: cs =>
      Char.ofNat (c.toNat ^^^ (key.getD (i % key.length) default).toNat) ::
        xor_encrypt_from key (i + 1) cs

/-- `xor_encrypt(text, key)`: character-wise XOR against the cycled key. -/
def xor_encrypt (text key : List Char) : List Char := xor_encrypt_from key 0 text

/-- `xor_decrypt` is literally `xor_encrypt`. -/
def xor_decrypt (encrypted key : List Char) : List Char := xor_encrypt encrypted key

/-- `encrypt_credential(password)`: XOR under the salt-derived key, then
UTF-8 encode and base64 encode.  Returns the ciphertext and the salt. -/
def encrypt_credential (masterKey password salt : List Char) : List Char × List Char :=
  (b64Encode (utf8Encode (xor_encrypt password (create_encryption_key masterKey salt))), salt)

/-- `decrypt_credential(encrypted_password, salt)`: base64 decode, UTF-8
decode, XOR with the same derived key.  `none` models the raised
`Exception("Failed to decrypt credential: ...")`. -/
def decrypt_credential (masterKey encryptedPassword salt : List Char) : Option (List Char) :=
  (b64Decode encryptedPassword).bind fun bytes =>
    (utf8Decode bytes).map fun s => xor_decrypt s (create_encryption_key masterKey salt)

/-- Module-level `encrypt_database_password`, which uses the global
service instance and therefore the process master key. -/
def encrypt_database_password (password salt : List Char) : List Char × List Char :=
  encrypt_credential defaultMasterKey password salt

/-- Module-level `decrypt_database_password`. -/
def decrypt_database_password (encryptedPassword salt : List Char) : Option (List Char) :=
  decrypt_credential defaultMasterKey encryptedPassword salt

/-- Decimal rendering of a non-negative integer, as Python's `str(port)`. -/
def natToChars (n : Nat) : List Char :=
  if n = 0 then ['0'] else (Nat.digits 10 n).reverse.map (fun d => Char.ofNat (48 + d))

/-- The canonical connection string
`"{host}:{port}/{database}@{username}:{db_type}"` hashed by
`hash_connection_identifier`. -/
def renderConnection (host : List Char) (port : Nat)
    (database username dbType : List Char) : List Char :=
  host ++ [':'] ++ natToChars port ++ ['/'] ++ database ++ ['@'] ++ username ++
    [':'] ++ dbType

/-- `hash_connection_identifier` / `generate_connection_hash` (the same
formula also appears as `DatabaseCredential.generate_connection_hash`). -/
def generate_connection_hash (host : List Char) (port : Nat)
    (database username dbType : List Char) : List Char :=
  sha256Hex (utf8Encode (renderConnection host port database username dbType))

theorem isValidChar_xor {n m : Nat} (hn : n.isValidChar) (hm : m < 128) :
    (n ^^^ m).isValidChar := by
  have key : (n ^^^ m) >>> 7 = n >>> 7 := by
    apply Nat.eq_of_testBit_eq
    intro i
    simp only [Nat.testBit_shiftRight, Nat.testBit_xor]
    have : m.testBit (7 + i) = false := by
      apply Nat.testBit_lt_two_pow
      calc m < 128 := hm
      _ = 2 ^ 7 := by norm_num
      _ ≤ 2 ^ (7 + i) := Nat.pow_le_pow_right (by norm_num) (by omega)
    simp [this]
  rw [Nat.shiftRight_eq_div_pow, Nat.shiftRight_eq_div_pow] at key
  norm_num at key
  rcases hn with h1 | h2
  · left
    omega
  · right
    constructor <;> omega

theorem create_encryption_key_ne_nil (masterKey salt : List Char) :
    create_encryption_key masterKey salt ≠ [] :=
  sha256Hex_ne_nil _

theorem create_encryption_key_lt (masterKey salt : List Char) :
    ∀ c ∈ create_encryption_key masterKey salt, c.toNat < 128 :=
  sha256Hex_toNat_lt _

theorem xor_encrypt_from_involutive (key : List Char) (hne : key ≠ [])
    (hlt : ∀ c ∈ key, c.toNat < 128) (i : Nat) (text : List Char) :
    xor_encrypt_from key i (xor_encrypt_from key i text) = text := by
  induction text generalizing i with
  | nil => rfl
  | cons c cs ih =>
    have hpos : 0 < key.length := List.length_pos.mpr hne
    have hmem : key.getD (i % key.length) default ∈ key := by
      rw [List.getD_eq_getElem key default (Nat.mod_lt i hpos)]
      exact List.getElem_mem _
    have hkey : (key.getD (i % key.length) default).toNat < 128 := hlt _ hmem
    have hvalid : (c.toNat ^^^ (key.getD (i % key.length) default).toNat).isValidChar :=
      isValidChar_xor (char_isValidChar c) hkey
    simp only [xor_encrypt_from]
    rw [toNat_ofNat_of_valid hvalid, Nat.xor_assoc, Nat.xor_self, Nat.xor_zero,
      Char.ofNat_toNat, ih (i + 1)]

theorem xor_encrypt_involutive (key : List Char) (hne : key ≠ [])
    (hlt : ∀ c ∈ key, c.toNat < 128) (text : List Char) :
    xor_encrypt (xor_encrypt text key) key = text :=
  xor_encrypt_from_involutive key hne hlt 0 text

/-- Round trip of the credential cipher: the derived key is a 64-character
hex digest, whose characters all lie below code point 128, so the XOR is
involutive on Unicode scalar values and the codecs cancel. -/
theorem decrypt_encrypt_credential (masterKey password salt : List Char) :
    decrypt_credential masterKey (encrypt_credential masterKey password salt).1
      (encrypt_credential masterKey password salt).2 = some password := by
  have hne := create_encryption_key_ne_nil masterKey salt
  have hlt := create_encryption_key_lt masterKey salt
  simp only [encrypt_credential, decrypt_credential]
  rw [b64Decode_b64Encode _ (utf8Encode_lt _)]
  simp only [Option.some_bind]
  rw [utf8Decode_utf8Encode]
  simp only [Option.map_some']
  rw [show xor_decrypt (xor_encrypt password (create_encryption_key masterKey salt))
      (create_encryption_key masterKey salt) = password from
    xor_encrypt_involutive _ hne hlt password]

/-- C2: decrypting the (ciphertext, salt) pair produced by encryption
returns the original secret, for every secret, every salt the encryptor
may draw, and every master key; in particular the module-level pair
`encrypt_database_password` / `decrypt_database_password` used by the
service round-trips. -/
theorem encrypt_decrypt_roundtrip (masterKey password salt : List Char) :
    decrypt_credential masterKey (encrypt_credential masterKey password salt).1
      (encrypt_credential masterKey password salt).2 = some password
    ∧ decrypt_database_password (encrypt_database_password password salt).1
      (encrypt_database_password password salt).2 = some password :=
  ⟨decrypt_encrypt_credential masterKey password salt,
   decrypt_encrypt_credential defaultMasterKey password salt⟩

theorem digitChar_inj {d e : Nat} (hd : d < 10) (he : e < 10)
    (h : Char.ofNat (48 + d) = Char.ofNat (48 + e)) : d = e := by
  have h1 : (Char.ofNat (48 + d)).toNat = 48 + d :=
    toNat_ofNat_of_valid (by constructor; omega)
  have h2 : (Char.ofNat (48 + e)).toNat = 48 + e :=
    toNat_ofNat_of_valid (by constructor; omega)
  rw [h] at h1
  omega

theorem natToChars_inj : Function.Injective natToChars := by
  intro m n h
  unfold natToChars at h
  split_ifs at h with hm hn hn
  · omega
  · -- m = 0, n ≠ 0: ['0'] = rendering of a positive number, whose head is
    -- the leading digit, which is nonzero
    exfalso
    have hne : Nat.digits 10 n ≠ [] := Nat.digits_ne_nil_iff_ne_zero.mpr hn
    have hlast := Nat.getLast_digit_ne_zero 10 hn
    rcases hrev : (Nat.digits 10 n).reverse with _ | ⟨d0, ds⟩
    · exact hne (by simpa using congrArg List.reverse hrev)
    · rw [hrev] at h
      simp only [List.map_cons] at h
      have hd0 : d0 = (Nat.digits 10 n).getLast hne := by
        have h2 : (Nat.digits 10 n).reverse.head? = some d0 := by rw [hrev]; rfl
        rw [List.head?_reverse] at h2
        exact ((List.getLast_eq_iff_getLast?_eq_some hne).mpr h2).symm
      have hd0ne : d0 ≠ 0 := hd0 ▸ hlast
      have hd0lt : d0 < 10 := by
        have hmem : d0 ∈ Nat.digits 10 n := by
          have h3 : d0 ∈ (Nat.digits 10 n).reverse := by rw [hrev]; exact List.mem_cons_self _ _
          simpa using h3
        exact Nat.digits_lt_base (by norm_num) hmem
      have : ('0' : Char) = Char.ofNat (48 + d0) := by
        have := congrArg List.head? h
        simpa using this
      have h0 : (0 : Nat) = d0 := by
        apply digitChar_inj (by omega) hd0lt
        simpa using this
      omega
  · -- symmetric case
    exfalso
    have hne : Nat.digits 10 m ≠ [] := Nat.digits_ne_nil_iff_ne_zero.mpr hm
    have hlast := Nat.getLast_digit_ne_zero 10 hm
    rcases hrev : (Nat.digits 10 m).reverse with _ | ⟨d0, ds⟩
    · exact hne (by simpa using congrArg List.reverse hrev)
    · rw [hrev] at h
      simp only [List.map_cons] at h
      have hd0 : d0 = (Nat.digits 10 m).getLast hne := by
        have h2 : (Nat.digits 10 m).reverse.head? = some d0 := by rw [hrev]; rfl
        rw [List.head?_reverse] at h2
        exact ((List.getLast_eq_iff_getLast?_eq_some hne).mpr h2).symm
      have hd0ne : d0 ≠ 0 := hd0 ▸ hlast
      have hd0lt : d0 < 10 := by
        have hmem : d0 ∈ Nat.digits 10 m := by
          have h3 : d0 ∈ (Nat.digits 10 m).reverse := by rw [hrev]; exact List.mem_cons_self _ _
          simpa using h3
        exact Nat.digits_lt_base (by norm_num) hmem
      have : Char.ofNat (48 + d0) = ('0' : Char) := by
        have := congrArg List.head? h
        simpa using this
      have h0 : d0 = (0 : Nat) := by
        apply digitChar_inj hd0lt (by omega)
        simpa using this
      omega
  · -- both positive: undo map and reverse, then digits are injective
    have hmap : (Nat.digits 10 m).reverse.map (fun d => Char.ofNat (48 + d)) =
        (Nat.digits 10 n).reverse.map (fun d => Char.ofNat (48 + d)) := h
    have hdig : Nat.digits 10 m = Nat.digits 10 n := by
      have hlen : (Nat.digits 10 m).reverse.length = (Nat.digits 10 n).reverse.length := by
        have := congrArg List.length hmap
        simpa using this
      apply List.reverse_injective
      apply List.ext_getElem (by simpa using hlen)
      intro i h1 h2
      have hm10 : (Nat.digits 10 m).reverse[i] < 10 := by
        have hmem : (Nat.digits 10 m).reverse[i] ∈ Nat.digits 10 m := by
          have h3 : (Nat.digits 10 m).reverse[i] ∈ (Nat.digits 10 m).reverse := List.getElem_mem _
          simpa using h3
        exact Nat.digits_lt_base (by norm_num) hmem
      have hn10 : (Nat.digits 10 n).reverse[i] < 10 := by
        have hmem : (Nat.digits 10 n).reverse[i] ∈ Nat.digits 10 n := by
          have h3 : (Nat.digits 10 n).reverse[i] ∈ (Nat.digits 10 n).reverse := List.getElem_mem _
          simpa using h3
        exact Nat.digits_lt_base (by norm_num) hmem
      have := congrArg (fun l => l.getD i 'x') hmap
      simp only [List.getD_eq_getElem, List.getElem_map] at this
      apply digitChar_inj hm10 hn10
      rw [List.getD_eq_getElem _ _ (by simpa using h1), List.getD_eq_getElem _ _ (by simpa using h2)] at this
      simpa using this
    calc m = Nat.ofDigits 10 (Nat.digits 10 m) := (Nat.ofDigits_digits 10 m).symm
    _ = Nat.ofDigits 10 (Nat.digits 10 n) := by rw [hdig]
    _ = n := Nat.ofDigits_digits 10 n

theorem render_host_inj {h1 h2 : List Char} {p : Nat} {d u t : List Char}
    (hne : h1 ≠ h2) :
    renderConnection h1 p d u t ≠ renderConnection h2 p d u t := by
  intro heq
  apply hne
  simp only [renderConnection, List.append_assoc, List.singleton_append, List.cons_append, List.nil_append] at heq
  exact List.append_cancel_right heq

theorem render_port_inj {h : List Char} {p1 p2 : Nat} {d u t : List Char}
    (hne : p1 ≠ p2) :
    renderConnection h p1 d u t ≠ renderConnection h p2 d u t := by
  intro heq
  apply hne
  simp only [renderConnection, List.append_assoc, List.singleton_append, List.cons_append, List.nil_append] at heq
  have h1 := List.append_cancel_left heq
  simp only [List.cons.injEq, eq_self_iff_true, true_and] at h1
  exact natToChars_inj (List.append_cancel_right h1)

theorem render_database_inj {h : List Char} {p : Nat} {d1 d2 u t : List Char}
    (hne : d1 ≠ d2) :
    renderConnection h p d1 u t ≠ renderConnection h p d2 u t := by
  intro heq
  apply hne
  simp only [renderConnection, List.append_assoc, List.singleton_append, List.cons_append, List.nil_append] at heq
  have h1 := List.append_cancel_left heq
  simp only [List.cons.injEq, eq_self_iff_true, true_and] at h1
  have h2 := List.append_cancel_left h1
  simp only [List.cons.injEq, eq_self_iff_true, true_and] at h2
  exact List.append_cancel_right h2

theorem render_username_inj {h : List Char} {p : Nat} {d u1 u2 t : List Char}
    (hne : u1 ≠ u2) :
    renderConnection h p d u1 t ≠ renderConnection h p d u2 t := by
  intro heq
  apply hne
  simp only [renderConnection, List.append_assoc, List.singleton_append, List.cons_append, List.nil_append] at heq
  have h1 := List.append_cancel_left heq
  simp only [List.cons.injEq, eq_self_iff_true, true_and] at h1
  have h2 := List.append_cancel_left h1
  simp only [List.cons.injEq, eq_self_iff_true, true_and] at h2
  have h3 := List.append_cancel_left h2
  simp only [List.cons.injEq, eq_self_iff_true, true_and] at h3
  exact List.append_cancel_right h3

theorem render_dbType_inj {h : List Char} {p : Nat} {d u t1 t2 : List Char}
    (hne : t1 ≠ t2) :
    renderConnection h p d u t1 ≠ renderConnection h p d u t2 := by
  intro heq
  apply hne
  simp only [renderConnection, List.append_assoc, List.singleton_append, List.cons_append, List.nil_append] at heq
  have h1 := List.append_cancel_left heq
  simp only [List.cons.injEq, eq_self_iff_true, true_and] at h1
  have h2 := List.append_cancel_left h1
  simp only [List.cons.injEq, eq_self_iff_true, true_and] at h2
  have h3 := List.append_cancel_left h2
  simp only [List.cons.injEq, eq_self_iff_true, true_and] at h3
  have h4 := List.append_cancel_left h3
  simp only [List.cons.injEq, eq_self_iff_true, true_and] at h4
  exact h4

/-!
## Data model (`app/models/credentials.py`) and service
(`app/services/credential_service.py`)

The SQLAlchemy session is modelled as an explicit `VaultState` threaded
through every operation.  `datetime.utcnow()` is the tick parameter `t`;
the salt drawn inside `encrypt_database_password` is the oracle parameter
`salt`.  The parameter `auditOk` models whether the audit-log insert of
`_log_operation` succeeds; the source swallows its failure, which the model
renders as leaving the audit log unchanged.  Failures of the primary
commits themselves are not modelled: in this deterministic embedding the
encryption and persistence primitives are total.
-/

/-- A row of `database_credentials`. -/
structure DatabaseCredential where
  id : Nat
  connection_hash : List Char
  name : List Char
  host : List Char
  port : Nat
  database : List Char
  username : List Char
  db_type : List Char
  encrypted_password : List Char
  encryption_salt : List Char
  created_at : Nat
  updated_at : Option Nat
  last_used : Option Nat
  user_session : Option (List Char)
  is_active : Bool
deriving DecidableEq

/-- A row of `credential_audit_log`.  `metadata_json` keeps the dictionary
passed to `json.dumps` as an association list. -/
structure CredentialAuditLog where
  id : Nat
  credential_id : Option Nat
  connection_hash : Option (List Char)
  operation : List Char
  success : Bool
  error_message : Option (List Char)
  user_session : Option (List Char)
  ip_address : Option (List Char)
  user_agent : Option (List Char)
  timestamp : Nat
  metadata_json : Option (List (List Char × List Char))
deriving DecidableEq

/-- The persistent store visible through one SQLAlchemy session: both
tables plus the two primary-key sequences. -/
structure VaultState where
  records : List DatabaseCredential
  audit : List CredentialAuditLog
  nextId : Nat
  nextAuditId : Nat
deriving DecidableEq

def emptyState : VaultState := ⟨[], [], 1, 1⟩

/-- Apply `f` to the first element satisfying `p`: the effect of mutating
the object returned by `query.filter(...).first()` and committing. -/
def updateFirst (p : α → Bool) (f : α → α) : List α → List α
  | [] => []
  | x :: xs => if p x then f x :: xs else x :: updateFirst p f xs

def opDuplicateCheck : List Char := "duplicate_check".data
def opCreate : List Char := "create".data
def opUpdate : List Char := "update".data
def opAccess : List Char := "access".data
def opDecrypt : List Char := "decrypt".data
def opDelete : List Char := "delete".data

def statusExists : List Char := "exists".data
def statusSuccess : List Char := "success".data
def statusError : List Char := "error".data

/-- `CredentialService._log_operation`: appends one audit row and commits;
its own failure (modelled by `auditOk = false`) is swallowed and leaves
the store unchanged. -/
def log_operation (st : VaultState) (auditOk : Bool)
    (connectionHash : Option (List Char)) (credentialId : Option Nat)
    (operation : List Char) (success : Bool)
    (errorMessage : Option (List Char)) (userSession : Option (List Char))
    (metadata : Option (List (List Char × List Char))) (t : Nat) : VaultState :=
  if auditOk then
    { st with
      audit := st.audit ++ [{
        id := st.nextAuditId
        credential_id := credentialId
        connection_hash := connectionHash
        operation := operation
        success := success
        error_message := errorMessage
        user_session := userSession
        ip_address := none
        user_agent := none
        timestamp := t
        metadata_json := metadata }]
      nextAuditId := st.nextAuditId + 1 }
  else st

/-- The dictionary returned by `save_credential`. -/
structure SaveResult where
  status : List Char
  message : List Char
  credential : Option DatabaseCredential
  duplicate : Bool
deriving DecidableEq

/-- `CredentialService.save_credential`. -/
def save_credential (st : VaultState) (auditOk : Bool)
    (name host : List Char) (port : Nat) (database username password dbType : List Char)
    (userSession : Option (List Char)) (salt : List Char) (t : Nat) :
    SaveResult × VaultState :=
  let connectionHash := generate_connection_hash host port database username dbType
  match st.records.find? (fun c => decide (c.connection_hash = connectionHash)) with
  | some existing =>
    if existing.is_active then
      let st1 := log_operation st auditOk (some connectionHash) none opDuplicateCheck
        true none userSession (some [("action".data, "found_existing".data)]) t
      let st2 := { st1 with
        records := updateFirst (fun c => decide (c.connection_hash = connectionHash))
          (fun c => { c with last_used := some t }) st1.records }
      ({ status := statusExists
         message := "Credentials already exist for this connection".data
         credential := some { existing with last_used := some t }
         duplicate := true }, st2)
    else
      let encrypted := encrypt_database_password password salt
      let st1 := { st with
        records := updateFirst (fun c => decide (c.connection_hash = connectionHash))
          (fun c => { c with
            name := name
            encrypted_password := encrypted.1
            encryption_salt := encrypted.2
            updated_at := some t
            last_used := some t
            is_active := true
            user_session := userSession }) st.records }
      let st2 := log_operation st1 auditOk (some connectionHash) (some existing.id)
        opUpdate true none userSession
        (some [("name".data, name), ("db_type".data, dbType)]) t
      ({ status := statusSuccess
         message := "Credentials saved successfully".data
         credential := some { existing with
           name := name
           encrypted_password := encrypted.1
           encryption_salt := encrypted.2
           updated_at := some t
           last_used := some t
           is_active := true
           user_session := userSession }
         duplicate := false }, st2)
  | none =>
      let encrypted := encrypt_database_password password salt
      let newCred : DatabaseCredential := {
        id := st.nextId
        connection_hash := connectionHash
        name := name
        host := host
        port := port
        database := database
        username := username
        db_type := dbType
        encrypted_password := encrypted.1
        encryption_salt := encrypted.2
        created_at := t
        updated_at := none
        last_used := some t
        user_session := userSession
        is_active := true }
      let st1 := { st with records := st.records ++ [newCred], nextId := st.nextId + 1 }
      let st2 := log_operation st1 auditOk (some connectionHash) (some newCred.id)
        opCreate true none userSession
        (some [("name".data, name), ("db_type".data, dbType)]) t
      ({ status := statusSuccess
         message := "Credentials saved successfully".data
         credential := some newCred
         duplicate := false }, st2)

/-- `CredentialService.get_credential`. -/
def get_credential (st : VaultState) (auditOk : Bool) (credentialId : Nat)
    (userSession : Option (List Char)) (t : Nat) :
    Option DatabaseCredential × VaultState :=
  match st.records.find? (fun c => decide (c.id = credentialId) && c.is_active) with
  | none => (none, st)
  | some credential =>
    let st1 := { st with
      records := updateFirst (fun c => decide (c.id = credentialId) && c.is_active)
        (fun c => { c with last_used := some t }) st.records }
    let st2 := log_operation st1 auditOk (some credential.connection_hash)
      (some credential.id) opAccess true none userSession none t
    (some { credential with last_used := some t }, st2)

/-- `CredentialService.get_credential_password`.  `none` covers both the
`NotFound` miss and the decryption failure of the source, which returns
`None` in both cases; a decryption failure additionally appends a
`decrypt` audit entry with `success = False`. -/
def get_credential_password (st : VaultState) (auditOk : Bool)
    (credentialId : Nat) (userSession : Option (List Char)) (t : Nat) :
    Option (List Char) × VaultState :=
  match get_credential st auditOk credentialId userSession t with
  | (none, st1) => (none, st1)
  | (some credential, st1) =>
    match decrypt_database_password credential.encrypted_password credential.encryption_salt with
    | some password => (some password, st1)
    | none =>
      (none, log_operation st1 auditOk (some credential.connection_hash)
        (some credentialId) opDecrypt false
        (some "Failed to decrypt credential".data) userSession none t)

/-- Session visibility filter of `list_credentials`: applied only when the
Python session string is truthy (non-`None` and non-empty). -/
def sessionVisible (userSession : Option (List Char)) (c : DatabaseCredential) : Bool :=
  match userSession with
  | none => true
  | some s =>
    if s.isEmpty then true
    else decide (c.user_session = some s) || decide (c.user_session = none)

/-- `ORDER BY last_used DESC` comparison (PostgreSQL places NULLs first
under DESC). -/
def lastUsedDesc (c1 c2 : DatabaseCredential) : Bool :=
  match c1.last_used, c2.last_used with
  | none, _ => true
  | some _, none => false
  | some a, some b => decide (b ≤ a)

def insertByLastUsed (c : DatabaseCredential) :
    List DatabaseCredential → List DatabaseCredential
  | [] => [c]
  | x :: xs => if lastUsedDesc c x then c :: x :: xs else x :: insertByLastUsed c xs

def sortByLastUsed (l : List DatabaseCredential) : List DatabaseCredential :=
  l.foldr insertByLastUsed []

/-- `CredentialService.list_credentials` (the fresh session it opens sees
the same committed store).  It reads only and writes nothing. -/
def list_credentials (st : VaultState) (userSession : Option (List Char)) :
    List DatabaseCredential × VaultState :=
  (sortByLastUsed (st.records.filter (fun c => c.is_active && sessionVisible userSession c)),
   st)

/-- `CredentialService.delete_credential`: soft delete by id, ignoring the
session. -/
def delete_credential (st : VaultState) (auditOk : Bool) (credentialId : Nat)
    (userSession : Option (List Char)) (t : Nat) : Bool × VaultState :=
  match st.records.find? (fun c => decide (c.id = credentialId)) with
  | none => (false, st)
  | some credential =>
    let st1 := { st with
      records := updateFirst (fun c => decide (c.id = credentialId))
        (fun c => { c with is_active := false, updated_at := some t }) st.records }
    let st2 := log_operation st1 auditOk (some credential.connection_hash)
      (some credential.id) opDelete true none userSession none t
    (true, st2)

/-- `CredentialService.check_duplicate`: a pure read. -/
def check_duplicate (st : VaultState) (host : List Char) (port : Nat)
    (database username dbType : List Char) : Option DatabaseCredential :=
  let connectionHash := generate_connection_hash host port database username dbType
  st.records.find? (fun c => decide (c.connection_hash = connectionHash) && c.is_active)

/-- States reachable from the empty store by any sequence of service
operations (`check_duplicate` takes no state and is therefore covered
trivially; `list_credentials` returns its state unchanged but is listed for
completeness). -/
inductive Reachable : VaultState → Prop where
  | empty : Reachable emptyState
  | save : ∀ {st} (auditOk : Bool) (name host : List Char) (port : Nat)
      (database username password dbType : List Char)
      (userSession : Option (List Char)) (salt : List Char) (t : Nat),
      Reachable st →
      Reachable (save_credential st auditOk name host port database username
        password dbType userSession salt t).2
  | get : ∀ {st} (auditOk : Bool) (credentialId : Nat)
      (userSession : Option (List Char)) (t : Nat),
      Reachable st →
      Reachable (get_credential st auditOk credentialId userSession t).2
  | getSecret : ∀ {st} (auditOk : Bool) (credentialId : Nat)
      (userSession : Option (List Char)) (t : Nat),
      Reachable st →
      Reachable (get_credential_password st auditOk credentialId userSession t).2
  | list : ∀ {st} (userSession : Option (List Char)),
      Reachable st →
      Reachable (list_credentials st userSession).2
  | delete : ∀ {st} (auditOk : Bool) (credentialId : Nat)
      (userSession : Option (List Char)) (t : Nat),
      Reachable st →
      Reachable (delete_credential st auditOk credentialId userSession t).2

/-!
## The unique-active-hash invariant (C3)

The `connection_hash` column is declared `unique=True`, and the service
maintains the corresponding invariant: `save_credential` mutates the row
found by hash or inserts only when no row carries the hash, and no other
operation changes any hash.  The model therefore preserves the stronger
property that all stored hashes are pairwise distinct, active or not.
-/

def hashesNodup (st : VaultState) : Prop :=
  (st.records.map (fun c => c.connection_hash)).Nodup

theorem log_operation_records (st : VaultState) (auditOk : Bool) (ch : Option (List Char))
    (ci : Option Nat) (op : List Char) (ok : Bool) (em us : Option (List Char))
    (md : Option (List (List Char × List Char))) (t : Nat) :
    (log_operation st auditOk ch ci op ok em us md t).records = st.records := by
  unfold log_operation
  split <;> rfl

theorem map_hash_updateFirst (p : DatabaseCredential → Bool)
    (f : DatabaseCredential → DatabaseCredential)
    (hf : ∀ c, (f c).connection_hash = c.connection_hash) (l : List DatabaseCredential) :
    (updateFirst p f l).map (fun c => c.connection_hash) =
      l.map (fun c => c.connection_hash) := by
  induction l with
  | nil => rfl
  | cons x xs ih =>
    simp only [updateFirst]
    split
    · simp [hf]
    · simp [ih]

theorem hashesNodup_save (st : VaultState) (auditOk : Bool)
    (name host : List Char) (port : Nat) (database username password dbType : List Char)
    (userSession : Option (List Char)) (salt : List Char) (t : Nat)
    (h : hashesNodup st) :
    hashesNodup (save_credential st auditOk name host port database username
      password dbType userSession salt t).2 := by
  unfold save_credential
  cases hf : st.records.find? (fun c =>
      decide (c.connection_hash = generate_connection_hash host port database username dbType)) with
  | some existing =>
    by_cases ha : existing.is_active = true
    · simp only [hf, ha, if_pos]
      unfold hashesNodup
      simp only [log_operation_records]
      rw [map_hash_updateFirst]
      · exact h
      · intro c
        rfl
    · simp only [hf, Bool.not_eq_true] at ha
      simp only [hf, ha, Bool.false_eq_true, if_neg, not_false_eq_true]
      unfold hashesNodup
      simp only [log_operation_records]
      rw [map_hash_updateFirst]
      · exact h
      · intro c
        rfl
  | none =>
    simp only [hf]
    unfold hashesNodup
    rw [log_operation_records]
    simp only [List.map_append, List.map_cons, List.map_nil]
    rw [List.nodup_append]
    refine ⟨h, by simp, ?_⟩
    intro x hx
    simp only [List.mem_map] at hx
    obtain ⟨c, hc, hcx⟩ := hx
    have := List.find?_eq_none.mp hf c hc
    simp only [decide_eq_true_eq] at this
    simp only [List.mem_cons, List.not_mem_nil, or_false]
    intro hx2
    exact this (hcx.trans hx2)

theorem hashesNodup_get (st : VaultState) (auditOk : Bool) (credentialId : Nat)
    (userSession : Option (List Char)) (t : Nat) (h : hashesNodup st) :
    hashesNodup (get_credential st auditOk credentialId userSession t).2 := by
  unfold get_credential
  cases hf : st.records.find? (fun c => decide (c.id = credentialId) && c.is_active) with
  | none => exact h
  | some credential =>
    unfold hashesNodup
    simp only [log_operation_records]
    rw [map_hash_updateFirst]
    · exact h
    · intro c
      rfl

theorem hashesNodup_getSecret (st : VaultState) (auditOk : Bool) (credentialId : Nat)
    (userSession : Option (List Char)) (t : Nat) (h : hashesNodup st) :
    hashesNodup (get_credential_password st auditOk credentialId userSession t).2 := by
  have hget := hashesNodup_get st auditOk credentialId userSession t h
  unfold get_credential_password
  cases hg : get_credential st auditOk credentialId userSession t with
  | mk copt st1 =>
    rw [hg] at hget
    simp only at hget
    cases copt with
    | none =>
      dsimp only
      exact hget
    | some credential =>
      dsimp only
      cases hd : decrypt_database_password credential.encrypted_password credential.encryption_salt with
      | some password =>
        dsimp only
        exact hget
      | none =>
        dsimp only
        unfold hashesNodup
        simp only [log_operation_records]
        exact hget

theorem hashesNodup_delete (st : VaultState) (auditOk : Bool) (credentialId : Nat)
    (userSession : Option (List Char)) (t : Nat) (h : hashesNodup st) :
    hashesNodup (delete_credential st auditOk credentialId userSession t).2 := by
  unfold delete_credential
  cases hf : st.records.find? (fun c => decide (c.id = credentialId)) with
  | none => exact h
  | some credential =>
    unfold hashesNodup
    simp only [log_operation_records]
    rw [map_hash_updateFirst]
    · exact h
    · intro c
      rfl

theorem reachable_hashesNodup {st : VaultState} (h : Reachable st) : hashesNodup st := by
  induction h with
  | empty => exact List.nodup_nil
  | save auditOk name host port database username password dbType userSession salt t _ ih =>
    exact hashesNodup_save _ auditOk name host port database username password
      dbType userSession salt t ih
  | get auditOk credentialId userSession t _ ih =>
    exact hashesNodup_get _ auditOk credentialId userSession t ih
  | getSecret auditOk credentialId userSession t _ ih =>
    exact hashesNodup_getSecret _ auditOk credentialId userSession t ih
  | list userSession _ ih => exact ih
  | delete auditOk credentialId userSession t _ ih =>
    exact hashesNodup_delete _ auditOk credentialId userSession t ih

/-- C3: after any sequence of CredentialStore operations (save, get,
getSecret, list, delete; checkDuplicate is stateless) starting from the
empty store, at most one credential with `is_active = true` exists per
`connection_hash` — indeed any two stored rows sharing a hash are the same
row, active or not. -/
theorem unique_active_hash_invariant {st : VaultState} (h : Reachable st) :
    ∀ c1 ∈ st.records, ∀ c2 ∈ st.records,
      c1.connection_hash = c2.connection_hash →
      c1.is_active = true → c2.is_active = true → c1 = c2 := by
  intro c1 h1 c2 h2 hh _ _
  exact List.inj_on_of_nodup_map (reachable_hashesNodup h) h1 h2 hh

def dummyCredential : DatabaseCredential :=
  ⟨0, [], [], [], 0, [], [], [], [], [], 0, none, none, none, false⟩

def c3WitnessState : VaultState :=
  (save_credential emptyState true "n".data "h".data 1 "d".data "u".data
    "p".data "t".data none "s".data 0).2

def c3WitnessCred : DatabaseCredential := c3WitnessState.records.getD 0 dummyCredential

/-- Witness for C3: the invariant instantiated at the one-save state and
its single stored row. -/
theorem unique_active_hash_invariant_witness : c3WitnessCred = c3WitnessCred := by
  have hreach : Reachable c3WitnessState :=
    Reachable.save true "n".data "h".data 1 "d".data "u".data "p".data "t".data
      none "s".data 0 Reachable.empty
  have hmem : c3WitnessCred ∈ c3WitnessState.records := by
    simp [c3WitnessCred, c3WitnessState, save_credential, emptyState, log_operation]
  have hact : c3WitnessCred.is_active = true := by
    simp [c3WitnessCred, c3WitnessState, save_credential, emptyState, log_operation]
  exact unique_active_hash_invariant hreach c3WitnessCred hmem c3WitnessCred hmem rfl hact hact

/-!
## The fingerprint contract (C9)

The canonical concatenation is injective in every single argument (with
the others fixed), but the SHA-256 digest itself has only finitely many
values, so the hash cannot separate every pair of inputs.
-/

/-- Big-endian value of a byte string. -/
def bytesToNatBE : List Nat → Nat
  | [] => 0
  | b :: bs => b * 256 ^ bs.length + bytesToNatBE bs

theorem bytesToNatBE_lt : ∀ (bs : List Nat), (∀ b ∈ bs, b < 256) →
    bytesToNatBE bs < 256 ^ bs.length := by
  intro bs
  induction bs with
  | nil => intro _; simp [bytesToNatBE]
  | cons b bs ih =>
    intro hb
    have h1 : b < 256 := hb b (List.mem_cons_self b bs)
    have h2 := ih (fun x hx => hb x (List.mem_cons_of_mem b hx))
    simp only [bytesToNatBE, List.length_cons]
    calc b * 256 ^ bs.length + bytesToNatBE bs
        < b * 256 ^ bs.length + 256 ^ bs.length := by omega
    _ = (b + 1) * 256 ^ bs.length := by ring
    _ ≤ 256 * 256 ^ bs.length := Nat.mul_le_mul_right _ (by omega)
    _ = 256 ^ (bs.length + 1) := by ring

theorem bytesToNatBE_inj : ∀ (l1 l2 : List Nat), l1.length = l2.length →
    (∀ b ∈ l1, b < 256) → (∀ b ∈ l2, b < 256) →
    bytesToNatBE l1 = bytesToNatBE l2 → l1 = l2 := by
  intro l1
  induction l1 with
  | nil =>
    intro l2 hlen _ _ _
    exact (List.length_eq_zero.mp hlen.symm).symm
  | cons b bs ih =>
    intro l2 hlen hb1 hb2 heq
    match l2 with
    | [] => simp at hlen
    | c :: cs =>
      have hlen' : bs.length = cs.length := by simpa using hlen
      simp only [bytesToNatBE, hlen'] at heq
      have hr1 : bytesToNatBE bs < 256 ^ cs.length := by
        rw [← hlen']
        exact bytesToNatBE_lt bs (fun x hx => hb1 x (List.mem_cons_of_mem b hx))
      have hr2 : bytesToNatBE cs < 256 ^ cs.length :=
        bytesToNatBE_lt cs (fun x hx => hb2 x (List.mem_cons_of_mem c hx))
      have hK : 0 < 256 ^ cs.length := Nat.pos_pow_of_pos _ (by norm_num)
      have e1 : (b * 256 ^ cs.length + bytesToNatBE bs) / 256 ^ cs.length = b := by
        rw [Nat.mul_comm, Nat.mul_add_div hK, Nat.div_eq_of_lt hr1, Nat.add_zero]
      have e2 : (c * 256 ^ cs.length + bytesToNatBE cs) / 256 ^ cs.length = c := by
        rw [Nat.mul_comm, Nat.mul_add_div hK, Nat.div_eq_of_lt hr2, Nat.add_zero]
      rw [heq, e2] at e1
      have hbc : b = c := e1.symm
      rw [hbc] at heq
      have htail : bytesToNatBE bs = bytesToNatBE cs := Nat.add_left_cancel heq
      rw [hbc, ih cs hlen' (fun x hx => hb1 x (List.mem_cons_of_mem b hx))
        (fun x hx => hb2 x (List.mem_cons_of_mem c hx)) htail]

/-- An injective family of candidate hosts. -/
def hostOfNat (n : Nat) : List Char := List.replicate n 'a'

/-- C9 as stated is false: two distinct hosts (with the remaining four
arguments fixed) must share a fingerprint, because there are infinitely
many hosts and only `256 ^ 32` possible digests. -/
theorem connection_hash_collision_exists :
    ¬ (∀ (host1 host2 : List Char) (port : Nat) (database username dbType : List Char),
        host1 ≠ host2 →
        generate_connection_hash host1 port database username dbType ≠
          generate_connection_hash host2 port database username dbType) := by
  intro hclaim
  have hfin : ∀ n : Nat,
      bytesToNatBE (sha256Bytes (utf8Encode (renderConnection (hostOfNat n) 5432
        "app".data "u".data "postgresql".data))) < 256 ^ 32 := by
    intro n
    have h := bytesToNatBE_lt (sha256Bytes (utf8Encode (renderConnection (hostOfNat n)
      5432 "app".data "u".data "postgresql".data)))
      (sha256Bytes_lt (utf8Encode (renderConnection (hostOfNat n) 5432 "app".data
        "u".data "postgresql".data)))
    rwa [sha256Bytes_length] at h
  obtain ⟨x, y, hxy, hF⟩ := Finite.exists_ne_map_eq_of_infinite
    (fun n : Nat => (⟨bytesToNatBE (sha256Bytes (utf8Encode (renderConnection
      (hostOfNat n) 5432 "app".data "u".data "postgresql".data))), hfin n⟩ : Fin (256 ^ 32)))
  have hhost : hostOfNat x ≠ hostOfNat y := by
    intro h
    apply hxy
    have hl := congrArg List.length h
    simpa [hostOfNat] using hl
  have hval := congrArg Fin.val hF
  simp only at hval
  have hbytes : sha256Bytes (utf8Encode (renderConnection (hostOfNat x) 5432
      "app".data "u".data "postgresql".data)) =
      sha256Bytes (utf8Encode (renderConnection (hostOfNat y) 5432
        "app".data "u".data "postgresql".data)) := by
    apply bytesToNatBE_inj _ _ ?_ (sha256Bytes_lt _) (sha256Bytes_lt _) hval
    rw [sha256Bytes_length, sha256Bytes_length]
  exact hclaim (hostOfNat x) (hostOfNat y) 5432 "app".data "u".data "postgresql".data
    hhost (by simp only [generate_connection_hash, sha256Hex]; rw [hbytes])

/-- C9 (amended): the fingerprint is a pure deterministic function equal to
the SHA-256 hex digest of the canonical concatenation, and any change to a
single argument changes the canonical concatenation itself — hence the hash
as well, except for the SHA-256 collisions that must exist by counting. -/
theorem fingerprint_contract (host host' : List Char) (port port' : Nat)
    (database database' username username' dbType dbType' : List Char) :
    generate_connection_hash host port database username dbType =
      sha256Hex (utf8Encode (renderConnection host port database username dbType))
    ∧ generate_connection_hash host port database username dbType =
      generate_connection_hash host port database username dbType
    ∧ (host ≠ host' → renderConnection host port database username dbType ≠
        renderConnection host' port database username dbType)
    ∧ (port ≠ port' → renderConnection host port database username dbType ≠
        renderConnection host port' database username dbType)
    ∧ (database ≠ database' → renderConnection host port database username dbType ≠
        renderConnection host port database' username dbType)
    ∧ (username ≠ username' → renderConnection host port database username dbType ≠
        renderConnection host port database username' dbType)
    ∧ (dbType ≠ dbType' → renderConnection host port database username dbType ≠
        renderConnection host port database username dbType') :=
  ⟨rfl, rfl,
   fun h => render_host_inj h,
   fun h => render_port_inj h,
   fun h => render_database_inj h,
   fun h => render_username_inj h,
   fun h => render_dbType_inj h⟩

/-- Witness for C9 (amended): two hosts differing in one character give
different canonical concatenations. -/
theorem fingerprint_contract_witness :
    renderConnection "a".data 1 "d".data "u".data "t".data ≠
      renderConnection "b".data 1 "d".data "u".data "t".data :=
  (fingerprint_contract "a".data "b".data 1 1 "d".data "d".data "u".data "u".data
    "t".data "t".data).2.2.1 (by decide)

/-!
## The save contract (C1)
-/

/-- C1 as stated is false on the code: inserting a fresh credential into
the empty store returns status `"success"`, not `"created"` (and the
reactivation path returns the same `"success"`). -/
theorem save_status_counterexample :
    ((save_credential emptyState true "n".data "h".data 1 "d".data "u".data
        "p".data "t".data none "s".data 0).1).status = statusSuccess ∧
    ((save_credential emptyState true "n".data "h".data 1 "d".data "u".data
        "p".data "t".data none "s".data 0).1).status ≠ "created".data := by
  have h : ((save_credential emptyState true "n".data "h".data 1 "d".data "u".data
      "p".data "t".data none "s".data 0).1).status = statusSuccess := by
    simp [save_credential, emptyState]
  refine ⟨h, ?_⟩
  rw [h]
  decide

/-- C1 (amended): if an active credential with the computed hash exists,
save returns status `exists` with the refreshed existing record, updates
only that record's `last_used`, logs a `duplicate_check` entry, and its
result and final state do not depend on the supplied secret at all; if an
inactive record with the hash exists, save reactivates that row in place
(same id, new name, new ciphertext and salt, `owner_session` overwritten,
`is_active` true, `updated_at`/`last_used` refreshed) and returns status
`success` (not `reactivated`) with an `update` audit entry; otherwise it
inserts a new record and returns status `success` (not `created`) with a
`create` audit entry. -/
theorem save_contract (st : VaultState) (auditOk : Bool) (name host : List Char)
    (port : Nat) (database username password dbType : List Char)
    (userSession : Option (List Char)) (salt : List Char) (t : Nat) :
    (∀ existing,
      st.records.find? (fun c => decide (c.connection_hash =
        generate_connection_hash host port database username dbType)) = some existing →
      existing.is_active = true →
      (save_credential st auditOk name host port database username password dbType
        userSession salt t).1.status = statusExists
      ∧ (save_credential st auditOk name host port database username password dbType
          userSession salt t).1.duplicate = true
      ∧ (save_credential st auditOk name host port database username password dbType
          userSession salt t).1.credential = some { existing with last_used := some t }
      ∧ (save_credential st auditOk name host port database username password dbType
          userSession salt t).2.records =
        updateFirst (fun c => decide (c.connection_hash =
            generate_connection_hash host port database username dbType))
          (fun c => { c with last_used := some t }) st.records
      ∧ (auditOk = true →
          (save_credential st auditOk name host port database username password dbType
            userSession salt t).2.audit = st.audit ++ [{
          id := st.nextAuditId
          credential_id := none
          connection_hash := some (generate_connection_hash host port database username dbType)
          operation := opDuplicateCheck
          success := true
          error_message := none
          user_session := userSession
          ip_address := none
          user_agent := none
          timestamp := t
          metadata_json := some [("action".data, "found_existing".data)] }])
      ∧ (∀ password',
          save_credential st auditOk name host port database username password' dbType
            userSession salt t =
          save_credential st auditOk name host port database username password dbType
            userSession salt t))
    ∧ (∀ existing,
      st.records.find? (fun c => decide (c.connection_hash =
        generate_connection_hash host port database username dbType)) = some existing →
      existing.is_active = false →
      (save_credential st auditOk name host port database username password dbType
        userSession salt t).1.status = statusSuccess
      ∧ (save_credential st auditOk name host port database username password dbType
          userSession salt t).1.duplicate = false
      ∧ (save_credential st auditOk name host port database username password dbType
          userSession salt t).1.credential = some { existing with
            name := name
            encrypted_password := (encrypt_database_password password salt).1
            encryption_salt := (encrypt_database_password password salt).2
            updated_at := some t
            last_used := some t
            is_active := true
            user_session := userSession }
      ∧ (save_credential st auditOk name host port database username password dbType
          userSession salt t).2.records =
        updateFirst (fun c => decide (c.connection_hash =
            generate_connection_hash host port database username dbType))
          (fun c => { c with
            name := name
            encrypted_password := (encrypt_database_password password salt).1
            encryption_salt := (encrypt_database_password password salt).2
            updated_at := some t
            last_used := some t
            is_active := true
            user_session := userSession }) st.records
      ∧ (auditOk = true →
          (save_credential st auditOk name host port database username password dbType
            userSession salt t).2.audit = st.audit ++ [{
          id := st.nextAuditId
          credential_id := some existing.id
          connection_hash := some (generate_connection_hash host port database username dbType)
          operation := opUpdate
          success := true
          error_message := none
          user_session := userSession
          ip_address := none
          user_agent := none
          timestamp := t
          metadata_json := some [("name".data, name), ("db_type".data, dbType)] }]))
    ∧ (st.records.find? (fun c => decide (c.connection_hash =
        generate_connection_hash host port database username dbType)) = none →
      (save_credential st auditOk name host port database username password dbType
        userSession salt t).1.status = statusSuccess
      ∧ (save_credential st auditOk name host port database username password dbType
          userSession salt t).1.duplicate = false
      ∧ (save_credential st auditOk name host port database username password dbType
          userSession salt t).2.records = st.records ++ [{
          id := st.nextId
          connection_hash := generate_connection_hash host port database username dbType
          name := name
          host := host
          port := port
          database := database
          username := username
          db_type := dbType
          encrypted_password := (encrypt_database_password password salt).1
          encryption_salt := (encrypt_database_password password salt).2
          created_at := t
          updated_at := none
          last_used := some t
          user_session := userSession
          is_active := true }]
      ∧ (auditOk = true →
          (save_credential st auditOk name host port database username password dbType
            userSession salt t).2.audit = st.audit ++ [{
          id := st.nextAuditId
          credential_id := some st.nextId
          connection_hash := some (generate_connection_hash host port database username dbType)
          operation := opCreate
          success := true
          error_message := none
          user_session := userSession
          ip_address := none
          user_agent := none
          timestamp := t
          metadata_json := some [("name".data, name), ("db_type".data, dbType)] }])) := by
  refine ⟨?_, ?_, ?_⟩
  · intro existing hfind hact
    refine ⟨?_, ?_, ?_, ?_, ?_, ?_⟩
    · simp only [save_credential, hfind, hact, if_true]
    · simp only [save_credential, hfind, hact, if_true]
    · simp only [save_credential, hfind, hact, if_true]
    · simp only [save_credential, hfind, hact, if_true, log_operation_records]
    · intro hok
      simp only [save_credential, hfind, hact, if_true, log_operation, hok]
      try simp
    · intro password'
      simp only [save_credential, hfind, hact, if_true]
  · intro existing hfind hact
    refine ⟨?_, ?_, ?_, ?_, ?_⟩
    · simp only [save_credential, hfind, hact, Bool.false_eq_true, if_false]
    · simp only [save_credential, hfind, hact, Bool.false_eq_true, if_false]
    · simp only [save_credential, hfind, hact, Bool.false_eq_true, if_false]
    · simp only [save_credential, hfind, hact, Bool.false_eq_true, if_false,
        log_operation_records]
    · intro hok
      simp only [save_credential, hfind, hact, Bool.false_eq_true, if_false,
        log_operation, hok]
      try simp
  · intro hfind
    refine ⟨?_, ?_, ?_, ?_⟩
    · simp only [save_credential, hfind]
    · simp only [save_credential, hfind]
    · simp only [save_credential, hfind, log_operation_records]
    · intro hok
      simp only [save_credential, hfind, log_operation, hok]
      try simp

/-- Witness for C1 (amended): the insert branch at the empty store. -/
theorem save_contract_witness :
    ((save_credential emptyState true "n2".data "h2".data 2 "d2".data "u2".data
      "p2".data "t2".data none "s2".data 1).1).status = statusSuccess :=
  ((save_contract emptyState true "n2".data "h2".data 2 "d2".data "u2".data
    "p2".data "t2".data none "s2".data 1).2.2 rfl).1

/-!
## Audit completeness (C4)
-/

/-- C4 as stated is false: a `get` call that finds nothing (a failed call)
appends zero audit entries, not one. -/
theorem audit_per_call_counterexample :
    (get_credential emptyState true 1 none 0).1 = none ∧
    (get_credential emptyState true 1 none 0).2.audit.length = emptyState.audit.length := by
  constructor <;> rfl

/-- C4 (amended): with the audit insert succeeding, `save` always appends
exactly one entry (`duplicate_check`, `update` or `create`, success true);
`get` and `delete` append exactly one matching successful entry when they
find their record and none otherwise; `getSecret` appends the `access`
entry of its inner `get` when the record is found (and nothing otherwise),
plus a failed `decrypt` entry — two entries total — when decryption fails;
`list` appends nothing and leaves the state untouched. -/
theorem audit_per_call (st : VaultState) (name host : List Char) (port : Nat)
    (database username password dbType : List Char) (userSession : Option (List Char))
    (salt : List Char) (t : Nat) (credentialId : Nat) :
    (∃ e, (save_credential st true name host port database username password dbType
        userSession salt t).2.audit = st.audit ++ [e] ∧ e.success = true ∧
      (e.operation = opDuplicateCheck ∨ e.operation = opUpdate ∨ e.operation = opCreate))
    ∧ ((get_credential st true credentialId userSession t).1 = none →
        (get_credential st true credentialId userSession t).2.audit = st.audit)
    ∧ (∀ c, (get_credential st true credentialId userSession t).1 = some c →
        ∃ e, (get_credential st true credentialId userSession t).2.audit = st.audit ++ [e]
          ∧ e.operation = opAccess ∧ e.success = true)
    ∧ ((delete_credential st true credentialId userSession t).1 = false →
        (delete_credential st true credentialId userSession t).2.audit = st.audit)
    ∧ ((delete_credential st true credentialId userSession t).1 = true →
        ∃ e, (delete_credential st true credentialId userSession t).2.audit = st.audit ++ [e]
          ∧ e.operation = opDelete ∧ e.success = true)
    ∧ ((get_credential st true credentialId userSession t).1 = none →
        (get_credential_password st true credentialId userSession t).2.audit = st.audit)
    ∧ (∀ c, (get_credential st true credentialId userSession t).1 = some c →
        decrypt_database_password c.encrypted_password c.encryption_salt ≠ none →
        ∃ e, (get_credential_password st true credentialId userSession t).2.audit =
          st.audit ++ [e] ∧ e.operation = opAccess ∧ e.success = true)
    ∧ (∀ c, (get_credential st true credentialId userSession t).1 = some c →
        decrypt_database_password c.encrypted_password c.encryption_salt = none →
        ∃ e1 e2, (get_credential_password st true credentialId userSession t).2.audit =
          st.audit ++ [e1, e2] ∧ e1.operation = opAccess ∧ e1.success = true
          ∧ e2.operation = opDecrypt ∧ e2.success = false)
    ∧ (list_credentials st userSession).2 = st := by
  refine ⟨?_, ?_, ?_, ?_, ?_, ?_, ?_, ?_, rfl⟩
  · cases hf : st.records.find? (fun c => decide (c.connection_hash =
        generate_connection_hash host port database username dbType)) with
    | some existing =>
      by_cases ha : existing.is_active = true
      · simp [save_credential, hf, ha, log_operation]
      · simp only [Bool.not_eq_true] at ha
        simp [save_credential, hf, ha, log_operation]
    | none => simp [save_credential, hf, log_operation]
  · intro hg
    cases hf : st.records.find? (fun c => decide (c.id = credentialId) && c.is_active) with
    | none => simp [get_credential, hf]
    | some c =>
      exfalso
      simp [get_credential, hf] at hg
  · intro c hg
    cases hf : st.records.find? (fun c => decide (c.id = credentialId) && c.is_active) with
    | none =>
      exfalso
      simp [get_credential, hf] at hg
    | some c' => simp [get_credential, hf, log_operation]
  · intro hd
    cases hf : st.records.find? (fun c => decide (c.id = credentialId)) with
    | none => simp [delete_credential, hf]
    | some c =>
      exfalso
      simp [delete_credential, hf] at hd
  · intro hd
    cases hf : st.records.find? (fun c => decide (c.id = credentialId)) with
    | none =>
      exfalso
      simp [delete_credential, hf] at hd
    | some c => simp [delete_credential, hf, log_operation]
  · intro hg
    have hst : get_credential st true credentialId userSession t =
        (none, (get_credential st true credentialId userSession t).2) := by
      rw [← hg]
    unfold get_credential_password
    rw [hst]
    cases hf : st.records.find? (fun c => decide (c.id = credentialId) && c.is_active) with
    | none => simp [get_credential, hf]
    | some c =>
      exfalso
      simp [get_credential, hf] at hg
  · intro c hg hd
    have hst : get_credential st true credentialId userSession t =
        (some c, (get_credential st true credentialId userSession t).2) := by
      rw [← hg]
    unfold get_credential_password
    rw [hst]
    cases hdec : decrypt_database_password c.encrypted_password c.encryption_salt with
    | none => exact absurd hdec hd
    | some password =>
      simp only
      cases hf : st.records.find? (fun c => decide (c.id = credentialId) && c.is_active) with
      | none =>
        exfalso
        simp [get_credential, hf] at hg
      | some c' => simp [get_credential, hf, hdec, log_operation]
  · intro c hg hd
    have hst : get_credential st true credentialId userSession t =
        (some c, (get_credential st true credentialId userSession t).2) := by
      rw [← hg]
    unfold get_credential_password
    rw [hst]
    cases hdec : decrypt_database_password c.encrypted_password c.encryption_salt with
    | some password => exact absurd hdec (by simp [hd])
    | none =>
      simp only
      cases hf : st.records.find? (fun c => decide (c.id = credentialId) && c.is_active) with
      | none =>
        exfalso
        simp [get_credential, hf] at hg
      | some cf =>
        refine
          ⟨{ id := st.nextAuditId,
             credential_id := some cf.id,
             connection_hash := some cf.connection_hash,
             operation := opAccess,
             success := true,
             error_message := none,
             user_session := userSession,
             ip_address := none,
             user_agent := none,
             timestamp := t,
             metadata_json := none },
           { id := st.nextAuditId + 1,
             credential_id := some credentialId,
             connection_hash := some c.connection_hash,
             operation := opDecrypt,
             success := false,
             error_message := some "Failed to decrypt credential".data,
             user_session := userSession,
             ip_address := none,
             user_agent := none,
             timestamp := t,
             metadata_json := none },
           ?_, rfl, rfl, rfl, rfl⟩
        simp [get_credential, hf, hdec, log_operation]

/-- Witness for C4 (amended): a missing-id `get` on the empty store leaves
the audit log unchanged. -/
theorem audit_per_call_witness :
    (get_credential emptyState true 1 none 0).2.audit = emptyState.audit :=
  (audit_per_call emptyState "n".data "h".data 1 "d".data "u".data "p".data
    "t".data none "s".data 0 1).2.1 rfl

/-!
## Helper lemmas about `updateFirst` and the listing order
-/

theorem log_operation_nextId (st : VaultState) (auditOk : Bool) (ch : Option (List Char))
    (ci : Option Nat) (op : List Char) (ok : Bool) (em us : Option (List Char))
    (md : Option (List (List Char × List Char))) (t : Nat) :
    (log_operation st auditOk ch ci op ok em us md t).nextId = st.nextId := by
  unfold log_operation
  split <;> rfl

theorem updateFirst_length (p : α → Bool) (f : α → α) (l : List α) :
    (updateFirst p f l).length = l.length := by
  induction l with
  | nil => rfl
  | cons x xs ih =>
    simp only [updateFirst]
    split <;> simp [ih]

theorem mem_insertByLastUsed (c x : DatabaseCredential) (l : List DatabaseCredential) :
    x ∈ insertByLastUsed c l ↔ x = c ∨ x ∈ l := by
  induction l with
  | nil => simp [insertByLastUsed]
  | cons y ys ih =>
    simp only [insertByLastUsed]
    split
    · simp [or_comm, or_assoc, or_left_comm]
    · simp only [List.mem_cons, ih]
      tauto

theorem mem_sortByLastUsed (x : DatabaseCredential) (l : List DatabaseCredential) :
    x ∈ sortByLastUsed l ↔ x ∈ l := by
  induction l with
  | nil => simp [sortByLastUsed]
  | cons y ys ih =>
    simp only [sortByLastUsed, List.foldr_cons] at *
    rw [mem_insertByLastUsed]
    simp [ih]

/-- After deactivating the first row with a given id, no active row with
that id remains, provided ids are unique. -/
theorem find?_updateFirst_deactivate (l : List DatabaseCredential)
    (credentialId : Nat) (t : Nat) (hids : (l.map (fun c => c.id)).Nodup) :
    (updateFirst (fun c => decide (c.id = credentialId))
        (fun c => { c with is_active := false, updated_at := some t }) l).find?
      (fun c => decide (c.id = credentialId) && c.is_active) = none := by
  induction l with
  | nil => rfl
  | cons x xs ih =>
    simp only [List.map_cons, List.nodup_cons] at hids
    by_cases hx : x.id = credentialId
    · simp only [updateFirst, hx, decide_True, if_pos]
      rw [List.find?_cons_of_neg _ (by simp)]
      apply List.find?_eq_none.mpr
      intro y hy
      simp only [Bool.and_eq_true, decide_eq_true_eq, not_and]
      intro hyid
      exfalso
      apply hids.1
      rw [hx, ← hyid]
      exact List.mem_map_of_mem (fun c => c.id) hy
    · simp only [updateFirst, hx, decide_False, if_neg, Bool.false_eq_true,
        not_false_eq_true]
      rw [List.find?_cons_of_neg _ (by simp [hx])]
      exact ih hids.2

/-- Every member of the deactivated list that is still active has a
different id, provided ids are unique. -/
theorem mem_updateFirst_deactivate_active (l : List DatabaseCredential)
    (credentialId : Nat) (t : Nat) (hids : (l.map (fun c => c.id)).Nodup)
    (hfound : ∃ c ∈ l, c.id = credentialId) :
    ∀ x ∈ updateFirst (fun c => decide (c.id = credentialId))
        (fun c => { c with is_active := false, updated_at := some t }) l,
      x.is_active = true → x.id ≠ credentialId := by
  induction l with
  | nil => simp [updateFirst]
  | cons y ys ih =>
    simp only [List.map_cons, List.nodup_cons] at hids
    by_cases hy : y.id = credentialId
    · simp only [updateFirst, hy, decide_True, if_pos]
      intro x hx hact
      rcases List.mem_cons.mp hx with hxy | hxys
      · rw [hxy] at hact
        simp at hact
      · intro hxid
        apply hids.1
        rw [hy, ← hxid]
        exact List.mem_map_of_mem (fun c => c.id) hxys
    · simp only [updateFirst, hy, decide_False, if_neg, Bool.false_eq_true,
        not_false_eq_true]
      intro x hx hact
      rcases List.mem_cons.mp hx with hxy | hxys
      · rw [hxy]
        exact hy
      · rcases hfound with ⟨c, hc, hcid⟩
        rcases List.mem_cons.mp hc with hcy | hcys
        · exact absurd (hcy ▸ hcid) hy
        · exact ih hids.2 ⟨c, hcys, hcid⟩ x hxys hact

/-- If the first matching row keeps matching after the update, `find?` on
the updated list returns the updated row. -/
theorem find?_updateFirst_same (p : DatabaseCredential → Bool)
    (f : DatabaseCredential → DatabaseCredential) (l : List DatabaseCredential)
    (c : DatabaseCredential) (hf : l.find? p = some c) (hp : p (f c) = true) :
    (updateFirst p f l).find? p = some (f c) := by
  induction l with
  | nil => simp at hf
  | cons x xs ih =>
    by_cases hx : p x = true
    · rw [List.find?_cons_of_pos _ hx] at hf
      injection hf with hf
      subst hf
      simp only [updateFirst, hx, if_pos]
      rw [List.find?_cons_of_pos _ hp]
    · rw [List.find?_cons_of_neg _ (by simp [hx])] at hf
      simp only [updateFirst, hx, if_neg, Bool.false_eq_true, not_false_eq_true]
      rw [List.find?_cons_of_neg _ (by simp [hx])]
      exact ih hf

/-!
## The get visibility rule (C5)
-/

def c5Record : DatabaseCredential :=
  { id := 1
    connection_hash := "hashA".data
    name := "n".data
    host := "h".data
    port := 1
    database := "d".data
    username := "u".data
    db_type := "t".data
    encrypted_password := "x".data
    encryption_salt := "s".data
    created_at := 0
    updated_at := none
    last_used := none
    user_session := some "A".data
    is_active := true }

def c5State : VaultState := ⟨[c5Record], [], 2, 1⟩

/-- C5 as stated is false: `get_credential` never consults `owner_session`,
so a credential owned by session `A` is returned to session `B` instead of
NotFound. -/
theorem get_visibility_counterexample :
    c5Record.user_session = some "A".data ∧
    (some "A".data : Option (List Char)) ≠ some "B".data ∧
    (get_credential c5State true 1 (some "B".data) 5).1 =
      some { c5Record with last_used := some 5 } := by
  refine ⟨rfl, by decide, ?_⟩
  rfl

/-- C5 (amended): `get(id, owner_session)` returns the credential if and
only if an active record with that id exists, entirely ignoring
`owner_session` (which is recorded only in the audit entry); on success it
refreshes `last_used` and appends an `access` audit entry. -/
theorem get_contract (st : VaultState) (auditOk : Bool) (credentialId : Nat)
    (userSession userSession' : Option (List Char)) (t : Nat) :
    ((get_credential st auditOk credentialId userSession t).1.isSome = true ↔
      ∃ c ∈ st.records, c.id = credentialId ∧ c.is_active = true)
    ∧ (∀ c, st.records.find? (fun c => decide (c.id = credentialId) && c.is_active) = some c →
        (get_credential st auditOk credentialId userSession t).1 =
          some { c with last_used := some t }
        ∧ (get_credential st auditOk credentialId userSession t).2.records =
          updateFirst (fun c => decide (c.id = credentialId) && c.is_active)
            (fun c => { c with last_used := some t }) st.records
        ∧ (auditOk = true →
            (get_credential st auditOk credentialId userSession t).2.audit =
              st.audit ++ [{
                id := st.nextAuditId
                credential_id := some c.id
                connection_hash := some c.connection_hash
                operation := opAccess
                success := true
                error_message := none
                user_session := userSession
                ip_address := none
                user_agent := none
                timestamp := t
                metadata_json := none }]))
    ∧ (get_credential st auditOk credentialId userSession t).1 =
        (get_credential st auditOk credentialId userSession' t).1
    ∧ (get_credential st auditOk credentialId userSession t).2.records =
        (get_credential st auditOk credentialId userSession' t).2.records := by
  refine ⟨?_, ?_, ?_, ?_⟩
  · cases hf : st.records.find? (fun c => decide (c.id = credentialId) && c.is_active) with
    | none =>
      simp only [get_credential, hf]
      constructor
      · intro hfalse
        simp at hfalse
      · intro ⟨c, hc, hcid, hcact⟩
        have := List.find?_eq_none.mp hf c hc
        simp [hcid, hcact] at this
    | some c =>
      simp only [get_credential, hf]
      constructor
      · intro _
        refine ⟨c, List.mem_of_find?_eq_some hf, ?_⟩
        have h2 := List.find?_some hf
        simp only [Bool.and_eq_true, decide_eq_true_eq] at h2
        exact h2
      · intro _
        rfl
  · intro c hfind
    refine ⟨?_, ?_, ?_⟩
    · simp [get_credential, hfind]
    · simp [get_credential, hfind, log_operation_records]
    · intro hok
      simp [get_credential, hfind, log_operation, hok]
  · cases hf : st.records.find? (fun c => decide (c.id = credentialId) && c.is_active) with
    | none => simp [get_credential, hf]
    | some c => simp [get_credential, hf]
  · cases hf : st.records.find? (fun c => decide (c.id = credentialId) && c.is_active) with
    | none => simp [get_credential, hf]
    | some c => simp [get_credential, hf, log_operation_records]

/-- Witness for C5 (amended): the found case at a store whose single
record belongs to another session. -/
theorem get_contract_witness :
    (get_credential c5State true 1 (some "B".data) 5).1 =
      some { c5Record with last_used := some 5 } :=
  ((get_contract c5State true 1 (some "B".data) none 5).2.1 c5Record rfl).1

/-!
## The delete contract (C6, C10)
-/

/-- C6: `delete(id, owner_session)` soft-deletes.  It returns true exactly
when a row with that id exists — the lookup ignores `owner_session` and
`is_active`; on success it deactivates the first such row in place,
refreshes its `updated_at`, keeps the row (same record count), and appends
a `delete` audit entry; on failure it changes nothing (no audit entry).
After a successful delete (with unique ids), `get(id)` returns NotFound and
`list()` excludes the record. -/
theorem delete_contract (st : VaultState) (auditOk : Bool) (credentialId : Nat)
    (userSession : Option (List Char)) (t : Nat)
    (hids : (st.records.map (fun c => c.id)).Nodup) :
    ((delete_credential st auditOk credentialId userSession t).1 = true ↔
      ∃ c ∈ st.records, c.id = credentialId)
    ∧ ((delete_credential st auditOk credentialId userSession t).1 = false →
        (delete_credential st auditOk credentialId userSession t).2 = st)
    ∧ (∀ c, st.records.find? (fun c => decide (c.id = credentialId)) = some c →
        (delete_credential st auditOk credentialId userSession t).2.records =
          updateFirst (fun c => decide (c.id = credentialId))
            (fun c => { c with is_active := false, updated_at := some t }) st.records
        ∧ (delete_credential st auditOk credentialId userSession t).2.records.length =
          st.records.length
        ∧ (auditOk = true →
            (delete_credential st auditOk credentialId userSession t).2.audit =
              st.audit ++ [{
                id := st.nextAuditId
                credential_id := some c.id
                connection_hash := some c.connection_hash
                operation := opDelete
                success := true
                error_message := none
                user_session := userSession
                ip_address := none
                user_agent := none
                timestamp := t
                metadata_json := none }])
        ∧ (get_credential (delete_credential st auditOk credentialId userSession t).2
            auditOk credentialId userSession t).1 = none
        ∧ (∀ sess c', c' ∈ (list_credentials
              (delete_credential st auditOk credentialId userSession t).2 sess).1 →
            c'.id ≠ credentialId)) := by
  refine ⟨?_, ?_, ?_⟩
  · cases hf : st.records.find? (fun c => decide (c.id = credentialId)) with
    | none =>
      simp only [delete_credential, hf]
      constructor
      · intro hfalse
        simp at hfalse
      · intro ⟨c, hc, hcid⟩
        have := List.find?_eq_none.mp hf c hc
        simp [hcid] at this
    | some c =>
      simp only [delete_credential, hf]
      constructor
      · intro _
        refine ⟨c, List.mem_of_find?_eq_some hf, ?_⟩
        have h2 := List.find?_some hf
        simpa using h2
      · intro _
        trivial
  · intro hd
    cases hf : st.records.find? (fun c => decide (c.id = credentialId)) with
    | none => simp [delete_credential, hf]
    | some c =>
      exfalso
      simp [delete_credential, hf] at hd
  · intro c hfind
    have hrec : (delete_credential st auditOk credentialId userSession t).2.records =
        updateFirst (fun c => decide (c.id = credentialId))
          (fun c => { c with is_active := false, updated_at := some t }) st.records := by
      simp [delete_credential, hfind, log_operation_records]
    refine ⟨hrec, ?_, ?_, ?_, ?_⟩
    · rw [hrec, updateFirst_length]
    · intro hok
      simp [delete_credential, hfind, log_operation, hok]
    · unfold get_credential
      rw [hrec, find?_updateFirst_deactivate st.records credentialId t hids]
    · intro sess c' hc'
      simp only [list_credentials, mem_sortByLastUsed, List.mem_filter,
        Bool.and_eq_true] at hc'
      obtain ⟨hmem, hact, _⟩ := hc'
      rw [hrec] at hmem
      exact mem_updateFirst_deactivate_active st.records credentialId t hids
        ⟨c, List.mem_of_find?_eq_some hfind, by
          have h2 := List.find?_some hfind
          simpa using h2⟩ c' hmem hact

def c6Record : DatabaseCredential :=
  { id := 5
    connection_hash := "hashB".data
    name := "n6".data
    host := "h6".data
    port := 6
    database := "d6".data
    username := "u6".data
    db_type := "t6".data
    encrypted_password := "x6".data
    encryption_salt := "s6".data
    created_at := 0
    updated_at := none
    last_used := some 2
    user_session := none
    is_active := true }

def c6State : VaultState := ⟨[c6Record], [], 6, 1⟩

/-- Witness for C6: deleting the only (active) record succeeds and the
subsequent `get` misses. -/
theorem delete_contract_witness :
    (delete_credential c6State true 5 none 9).1 = true ∧
    (get_credential (delete_credential c6State true 5 none 9).2 true 5 none 9).1 = none := by
  have h := delete_contract c6State true 5 none 9 (by simp [c6State])
  exact ⟨h.1.mpr ⟨c6Record, by simp [c6State], rfl⟩, (h.2.2 c6Record rfl).2.2.2.1⟩

/-- C10: `delete` on an id whose row exists but is already soft-deleted
still returns true, refreshes that row's `updated_at`, and appends another
`delete` audit entry; its result and side effects depend only on the
existence of a row with that id, never on `is_active`, so repeated deletes
each report success and each add an audit entry. -/
theorem delete_inactive_contract (st : VaultState) (credentialId : Nat)
    (userSession : Option (List Char)) (t t' : Nat) :
    ∀ c, st.records.find? (fun c => decide (c.id = credentialId)) = some c →
      (delete_credential st true credentialId userSession t).1 = true
      ∧ (delete_credential st true credentialId userSession t).2.records =
        updateFirst (fun c => decide (c.id = credentialId))
          (fun c => { c with is_active := false, updated_at := some t }) st.records
      ∧ (delete_credential st true credentialId userSession t).2.audit =
        st.audit ++ [{
          id := st.nextAuditId
          credential_id := some c.id
          connection_hash := some c.connection_hash
          operation := opDelete
          success := true
          error_message := none
          user_session := userSession
          ip_address := none
          user_agent := none
          timestamp := t
          metadata_json := none }]
      ∧ (delete_credential (delete_credential st true credentialId userSession t).2
          true credentialId userSession t').1 = true
      ∧ (delete_credential (delete_credential st true credentialId userSession t).2
          true credentialId userSession t').2.audit.length = st.audit.length + 2 := by
  intro c hfind
  have hfind2 : (delete_credential st true credentialId userSession t).2.records.find?
      (fun c => decide (c.id = credentialId)) =
      some { c with is_active := false, updated_at := some t } := by
    have hrec : (delete_credential st true credentialId userSession t).2.records =
        updateFirst (fun c => decide (c.id = credentialId))
          (fun c => { c with is_active := false, updated_at := some t }) st.records := by
      simp [delete_credential, hfind, log_operation_records]
    rw [hrec]
    apply find?_updateFirst_same _ _ _ c hfind
    have h2 := List.find?_some hfind
    simpa using h2
  have hgen : ∀ (s2 : VaultState) (c2 : DatabaseCredential) (u : Nat),
      s2.records.find? (fun c => decide (c.id = credentialId)) = some c2 →
      (delete_credential s2 true credentialId userSession u).1 = true ∧
      (delete_credential s2 true credentialId userSession u).2.audit.length =
        s2.audit.length + 1 := by
    intro s2 c2 u hf2
    constructor
    · simp [delete_credential, hf2]
    · simp [delete_credential, hf2, log_operation]
  refine ⟨?_, ?_, ?_, ?_, ?_⟩
  · exact (hgen st c t hfind).1
  · simp [delete_credential, hfind, log_operation_records]
  · simp [delete_credential, hfind, log_operation]
  · exact (hgen _ _ t' hfind2).1
  · rw [(hgen _ _ t' hfind2).2, (hgen st c t hfind).2]

def c10Record : DatabaseCredential :=
  { id := 7
    connection_hash := "hashC".data
    name := "n10".data
    host := "h10".data
    port := 10
    database := "d10".data
    username := "u10".data
    db_type := "t10".data
    encrypted_password := "x10".data
    encryption_salt := "s10".data
    created_at := 0
    updated_at := some 1
    last_used := some 1
    user_session := none
    is_active := false }

def c10State : VaultState := ⟨[c10Record], [], 8, 1⟩

/-- Witness for C10: deleting an already-inactive record reports success,
and doing it twice appends two audit entries. -/
theorem delete_inactive_contract_witness :
    (delete_credential c10State true 7 none 3).1 = true ∧
    (delete_credential (delete_credential c10State true 7 none 3).2
      true 7 none 4).2.audit.length = c10State.audit.length + 2 := by
  have h := delete_inactive_contract c10State 7 none 3 4 c10Record rfl
  exact ⟨h.1, h.2.2.2.2⟩

/-!
## Decryption failure surfacing (C7)
-/

/-- C7: when `getSecret` finds its credential but decrypting the stored
ciphertext fails, the failure is audited as operation `decrypt` with
`success = false` on top of the `access` entry of the inner `get`, and the
caller receives `none` — an outcome distinct from every successful
`some secret` result (though the same `None` the source also returns for a
missing id). -/
theorem decrypt_failure_contract (st : VaultState) (credentialId : Nat)
    (userSession : Option (List Char)) (t : Nat) :
    ∀ c, st.records.find? (fun c => decide (c.id = credentialId) && c.is_active) = some c →
      decrypt_database_password c.encrypted_password c.encryption_salt = none →
      (get_credential_password st true credentialId userSession t).1 = none
      ∧ (∀ pw, (get_credential_password st true credentialId userSession t).1 ≠ some pw)
      ∧ ∃ e, (get_credential_password st true credentialId userSession t).2.audit =
          (get_credential st true credentialId userSession t).2.audit ++ [e]
          ∧ e.operation = opDecrypt ∧ e.success = false := by
  intro c hfind hdec
  have hget1 : (get_credential st true credentialId userSession t).1 =
      some { c with last_used := some t } := by
    simp [get_credential, hfind]
  have hmain : (get_credential_password st true credentialId userSession t) =
      (none, log_operation (get_credential st true credentialId userSession t).2 true
        (some c.connection_hash) (some credentialId) opDecrypt false
        (some "Failed to decrypt credential".data) userSession none t) := by
    unfold get_credential_password
    cases hg : get_credential st true credentialId userSession t with
    | mk copt st1 =>
      rw [hg] at hget1
      simp only at hget1
      subst hget1
      dsimp only
      have hdec2 : decrypt_database_password
          ({ c with last_used := some t } : DatabaseCredential).encrypted_password
          ({ c with last_used := some t } : DatabaseCredential).encryption_salt = none := by
        simpa using hdec
      rw [hdec2]
  rw [hmain]
  refine ⟨rfl, fun pw => by simp, ?_⟩
  refine
    ⟨{ id := (get_credential st true credentialId userSession t).2.nextAuditId,
       credential_id := some credentialId,
       connection_hash := some c.connection_hash,
       operation := opDecrypt,
       success := false,
       error_message := some "Failed to decrypt credential".data,
       user_session := userSession,
       ip_address := none,
       user_agent := none,
       timestamp := t,
       metadata_json := none }, ?_, rfl, rfl⟩
  simp [log_operation]

def c7Record : DatabaseCredential :=
  { id := 9
    connection_hash := "hashD".data
    name := "n7".data
    host := "h7".data
    port := 7
    database := "d7".data
    username := "u7".data
    db_type := "t7".data
    encrypted_password := "A".data
    encryption_salt := "s7".data
    created_at := 0
    updated_at := none
    last_used := none
    user_session := none
    is_active := true }

def c7State : VaultState := ⟨[c7Record], [], 10, 1⟩

/-- Witness for C7: the stored ciphertext `"A"` is rejected by the base64
decoder (length 1 after filtering), so decryption fails and `getSecret`
returns `none`. -/
theorem decrypt_failure_contract_witness :
    (get_credential_password c7State true 9 none 4).1 = none :=
  (decrypt_failure_contract c7State 9 none 4 c7Record rfl rfl).1

/-!
## Audit failure does not affect the primary operation (C8)
-/

/-- C8: a failing audit append (`auditOk = false`, the swallowed exception
of `_log_operation`) never changes the result or the persisted credential
rows of save, get, getSecret or delete; only the audit table differs. -/
theorem audit_failure_contract (st : VaultState) (name host : List Char) (port : Nat)
    (database username password dbType : List Char) (userSession : Option (List Char))
    (salt : List Char) (t : Nat) (credentialId : Nat) :
    ((save_credential st false name host port database username password dbType
        userSession salt t).1 =
      (save_credential st true name host port database username password dbType
        userSession salt t).1
     ∧ (save_credential st false name host port database username password dbType
        userSession salt t).2.records =
      (save_credential st true name host port database username password dbType
        userSession salt t).2.records
     ∧ (save_credential st false name host port database username password dbType
        userSession salt t).2.nextId =
      (save_credential st true name host port database username password dbType
        userSession salt t).2.nextId)
    ∧ ((get_credential st false credentialId userSession t).1 =
        (get_credential st true credentialId userSession t).1
      ∧ (get_credential st false credentialId userSession t).2.records =
        (get_credential st true credentialId userSession t).2.records)
    ∧ ((get_credential_password st false credentialId userSession t).1 =
        (get_credential_password st true credentialId userSession t).1
      ∧ (get_credential_password st false credentialId userSession t).2.records =
        (get_credential_password st true credentialId userSession t).2.records)
    ∧ ((delete_credential st false credentialId userSession t).1 =
        (delete_credential st true credentialId userSession t).1
      ∧ (delete_credential st false credentialId userSession t).2.records =
        (delete_credential st true credentialId userSession t).2.records) := by
  have hget : ∀ auditOk, get_credential st auditOk credentialId userSession t =
      (match st.records.find? (fun c => decide (c.id = credentialId) && c.is_active) with
       | none => (none, st)
       | some c =>
         (some { c with last_used := some t },
          log_operation { st with
            records := updateFirst (fun c => decide (c.id = credentialId) && c.is_active)
              (fun c => { c with last_used := some t }) st.records }
            auditOk (some c.connection_hash) (some c.id) opAccess true none
            userSession none t)) := by
    intro auditOk
    rfl
  refine ⟨?_, ?_, ?_, ?_⟩
  · cases hf : st.records.find? (fun c => decide (c.connection_hash =
        generate_connection_hash host port database username dbType)) with
    | some existing =>
      by_cases ha : existing.is_active = true
      · refine ⟨?_, ?_, ?_⟩ <;>
          simp [save_credential, hf, ha, log_operation_records, log_operation_nextId]
      · simp only [Bool.not_eq_true] at ha
        refine ⟨?_, ?_, ?_⟩ <;>
          simp [save_credential, hf, ha, log_operation_records, log_operation_nextId]
    | none =>
      refine ⟨?_, ?_, ?_⟩ <;>
        simp [save_credential, hf, log_operation_records, log_operation_nextId]
  · cases hf : st.records.find? (fun c => decide (c.id = credentialId) && c.is_active) with
    | none => refine ⟨?_, ?_⟩ <;> simp [get_credential, hf]
    | some c =>
      refine ⟨?_, ?_⟩ <;> simp [get_credential, hf, log_operation_records]
  · cases hf : st.records.find? (fun c => decide (c.id = credentialId) && c.is_active) with
    | none =>
      refine ⟨?_, ?_⟩ <;>
        simp [get_credential_password, hget, hf]
    | some c =>
      cases hd : decrypt_database_password c.encrypted_password c.encryption_salt with
      | some password =>
        refine ⟨?_, ?_⟩ <;>
          simp [get_credential_password, hget, hf, hd, log_operation_records]
      | none =>
        refine ⟨?_, ?_⟩ <;>
          simp [get_credential_password, hget, hf, hd, log_operation_records]
  · cases hf : st.records.find? (fun c => decide (c.id = credentialId)) with
    | none => refine ⟨?_, ?_⟩ <;> simp [delete_credential, hf]
    | some c =>
      refine ⟨?_, ?_⟩ <;> simp [delete_credential, hf, log_operation_records]
